import Mathlib

/-!
Verification of the Fanorona board-state core (`gym_fanorona/envs/state.py`):
the state representation, its terminal/utility evaluation, and the textual
codec (`set_from_board_str` / `get_board_str`).

Strings are modelled as `List Char`; Python exceptions are modelled with
`Except`.  The modules `constants.py`, `enums.py` and `position.py` are not
part of the sources; their content is modelled from the spec where noted.
-/

namespace Fanorona

/-- Modelled from the spec: `constants.py` is missing; the spec fixes a 5×9
grid ("fixed ROWS×COLS grid (5×9 for Fanorona)"). -/
def BOARD_ROWS : Nat := 5

/-- Modelled from the spec: `constants.py` is missing; 9 columns. -/
def BOARD_COLS : Nat := 9

/-- Modelled from the spec: piece occupancy is one of EMPTY, WHITE, BLACK
(`enums.py` is missing). -/
inductive Piece where
  | EMPTY
  | WHITE
  | BLACK
deriving DecidableEq

/-- Modelled from the spec: movement direction is one of eight compass
directions or the sentinel `X` meaning "not inside a capturing sequence"
(`enums.py` is missing; `state.py` itself names the sentinel `Direction.X`). -/
inductive Direction where
  | NW | N | NE | W | X | E | SW | S | SE
deriving DecidableEq

/-- Modelled from the spec: game outcome is WIN, LOSS or DRAW. -/
inductive Reward where
  | WIN | LOSS | DRAW
deriving DecidableEq

/-- Python `utility` returns either a `Reward` tag or a signed integer heuristic
(Python type `Union[Reward, int]`). -/
inductive UtilityVal where
  | reward : Reward → UtilityVal
  | heur : Int → UtilityVal
deriving DecidableEq

/-- Error kinds of the core (spec §7); Python raises exceptions, modelled by
`Except`.  All decode-time failures are the "malformed input" kind. -/
inductive Err where
  | outOfRange
  | malformed
  | invalidPiece
deriving DecidableEq

deriving instance DecidableEq for Except

/-- Python `Piece.other`: WHITE↔BLACK, fails on EMPTY (spec: "undefined (must fail)
for EMPTY"; `enums.py` is missing). -/
def Piece.other : Piece → Except Err Piece
  | .EMPTY => .error .invalidPiece
  | .WHITE => .ok .BLACK
  | .BLACK => .ok .WHITE

/-- The board state (`FanoronaState.__init__`): piece grid, side to move,
direction of the last capture, visited grid, half-move counter. -/
structure FanoronaState where
  board_state : List (List Piece)
  turn_to_play : Piece
  last_dir : Direction
  visited : List (List Bool)
  half_moves : Int
deriving DecidableEq

/-- A structurally valid grid: `BOARD_ROWS` rows of `BOARD_COLS` cells. -/
def gridWF {α : Type} (g : List (List α)) : Prop :=
  g.length = BOARD_ROWS ∧ ∀ row ∈ g, row.length = BOARD_COLS

/-- Modelled from the spec: `position.py` is missing; `pos_range` enumerates
every (row, col) exactly once in row-major order (spec §4.1). -/
def pos_range : List (Nat × Nat) :=
  ((List.range BOARD_ROWS).map fun r => (List.range BOARD_COLS).map fun c => (r, c)).flatten

/-- Python `FanoronaState.get_piece`: the piece at the given coordinates; indexing
outside the grid raises (spec: OutOfRange). -/
def get_piece (s : FanoronaState) (r c : Nat) : Except Err Piece :=
  match s.board_state.get? r with
  | none => .error .outOfRange
  | some row =>
    match row.get? c with
    | none => .error .outOfRange
    | some p => .ok p

/-- Python `FanoronaState.count`: number of positions holding `side`.  On the
in-range positions of `pos_range` over a well-formed grid, `get_piece`
always succeeds. -/
def count (s : FanoronaState) (side : Piece) : Nat :=
  (pos_range.filter fun q => decide (get_piece s q.1 q.2 = .ok side)).length

/-- Python `FanoronaState.other_side`: colour of the opponent's pieces. -/
def other_side (s : FanoronaState) : Except Err Piece :=
  s.turn_to_play.other

/-- Python `FanoronaState.in_capturing_seq`. -/
def in_capturing_seq (s : FanoronaState) : Bool :=
  s.last_dir ≠ Direction.X

/-- Python `FanoronaState.piece_exists`: whether any cell holds `piece`. -/
def piece_exists (s : FanoronaState) (piece : Piece) : Bool :=
  pos_range.any fun q => decide (get_piece s q.1 q.2 = .ok piece)

/-- Python `FanoronaState.is_done`.  `MOVE_LIMIT` comes from the missing
`constants.py`; the spec fixes it as a constant of unspecified value, so it
is a parameter here. -/
def is_done (MOVE_LIMIT : Int) (s : FanoronaState) : Except Err Bool :=
  if MOVE_LIMIT ≤ s.half_moves then
    .ok true
  else do
    let own := piece_exists s s.turn_to_play
    let othr ← other_side s
    let other_exists := piece_exists s othr
    if own && other_exists then .ok false else .ok true

/-- Python `FanoronaState.utility`. -/
def utility (MOVE_LIMIT : Int) (s : FanoronaState) (side : Piece) :
    Except Err UtilityVal :=
  if MOVE_LIMIT ≤ s.half_moves then
    .ok (.reward .DRAW)
  else do
    let d ← is_done MOVE_LIMIT s
    if d then do
      let winner ←
        if piece_exists s s.turn_to_play then pure s.turn_to_play
        else other_side s
      if side = winner then .ok (.reward .WIN) else .ok (.reward .LOSS)
    else do
      let so ← side.other
      .ok (.heur ((count s side : Int) - (count s so : Int)))

/-- Write one cell of a 2D list (used by `reset_visited_pos` and the decoder;
`visited[row][col] = v`). -/
def set2 {α : Type} (g : List (List α)) (r c : Nat) (x : α) : List (List α) :=
  g.set r (((g.get? r).getD []).set c x)

/-- Python `FanoronaState.reset_visited_pos`: sets `visited[row][col] = 0` for every
position of `pos_range`. -/
def reset_visited_pos (s : FanoronaState) : FanoronaState :=
  { s with visited := pos_range.foldl (fun v q => set2 v q.1 q.2 false) s.visited }

/-- Value of an ASCII digit character, `none` otherwise (Python `int` on a
single board-string character). -/
def charDigitVal (c : Char) : Option Nat :=
  if ('0' ≤ c ∧ c ≤ '9') then some (c.toNat - 48) else none

/-- Python `str.split(sep)`: split at every separator, keeping empty pieces. -/
def splitP (p : Char → Bool) : List Char → List (List Char)
  | [] => [[]]
  | c :: rest =>
    if p c then [] :: splitP p rest
    else
      match splitP p rest with
      | [] => [[c]]
      | x :: xs => (c :: x) :: xs

/-- Python `str.split()` with no argument: whitespace-separated words, empty
pieces dropped. -/
def pySplitWs (cs : List Char) : List (List Char) :=
  (splitP (fun c => c.isWhitespace) cs).filter (fun w => w ≠ [])

/-- Python `str.split(sep)` for a one-character separator. -/
def splitChar (sep : Char) (cs : List Char) : List (List Char) :=
  splitP (fun c => c == sep) cs

/-- Python `str.rstrip("/")`: drop every trailing `/`. -/
def rstripSlash (cs : List Char) : List Char :=
  (cs.reverse.dropWhile (fun c => c == '/')).reverse

/-- Little-endian decimal digits of `n`, with explicit fuel so that the
definition is structural. -/
def natDigitsRevFuel : Nat → Nat → List Char
  | 0, _ => []
  | fuel + 1, n => if n = 0 then [] else Nat.digitChar (n % 10) :: natDigitsRevFuel fuel (n / 10)

/-- Python `str` of a non-negative integer: standard decimal notation. -/
def natToDecimal (n : Nat) : List Char :=
  if n = 0 then ['0'] else (natDigitsRevFuel n n).reverse

/-- Python `str` of an integer. -/
def intRepr (i : Int) : List Char :=
  if i < 0 then '-' :: natToDecimal i.natAbs else natToDecimal i.toNat

/-- Helper for `pyDigitsOk`: the digit grammar after its first character
(digits, with each underscore flanked by digits). -/
def pyDigitsTail : List Char → Bool
  | [] => true
  | c :: rest =>
    if c = '_' then
      match rest with
      | [] => false
      | d :: r => d.isDigit && pyDigitsTail r
    else c.isDigit && pyDigitsTail rest

/-- Python `int()` digit-part grammar: a nonempty ASCII digit string, with
single underscores allowed between digits. -/
def pyDigitsOk : List Char → Bool
  | [] => false
  | c :: rest => c.isDigit && pyDigitsTail rest

/-- Decimal value of a digit string (most significant first). -/
def digitsFoldVal (cs : List Char) : Nat :=
  cs.foldl (fun v c => 10 * v + (c.toNat - 48)) 0

/-- Python `int()` on a whitespace-free token: optional sign, then digits with
optional single embedded underscores.  (The surrounding-whitespace allowance
of `int()` is irrelevant here: the decoder only applies it to words produced
by `str.split()`, which contain no whitespace.) -/
def pyInt (cs : List Char) : Option Int :=
  match cs with
  | '-' :: rest =>
    if pyDigitsOk rest then some (-(digitsFoldVal (rest.filter (fun c => c != '_')) : Int))
    else none
  | '+' :: rest =>
    if pyDigitsOk rest then some ((digitsFoldVal (rest.filter (fun c => c != '_')) : Int))
    else none
  | _ =>
    if pyDigitsOk cs then some ((digitsFoldVal (cs.filter (fun c => c != '_')) : Int))
    else none

/-- Modelled from the spec: `str(Piece)` (from the missing `enums.py`) renders
WHITE as `W` and BLACK as `B`, the board-string piece markers.  EMPTY's
rendering is never emitted for a state whose `turn_to_play` is WHITE or
BLACK; it is rendered `0` here. -/
def strPiece : Piece → List Char
  | .WHITE => ['W']
  | .BLACK => ['B']
  | .EMPTY => ['0']

/-- Modelled from the spec: `str(Direction)` (from the missing `enums.py`) is
the direction's member name, with the sentinel `X` rendered `-`. -/
def dirStr : Direction → List Char
  | .NW => ['N', 'W']
  | .N => ['N']
  | .NE => ['N', 'E']
  | .W => ['W']
  | .X => ['-']
  | .E => ['E']
  | .SW => ['S', 'W']
  | .S => ['S']
  | .SE => ['S', 'E']

/-- Modelled from the spec: `Direction[name]`, enum lookup by member name. -/
def dirOfName (cs : List Char) : Option Direction :=
  if cs = ['N', 'W'] then some .NW
  else if cs = ['N'] then some .N
  else if cs = ['N', 'E'] then some .NE
  else if cs = ['W'] then some .W
  else if cs = ['X'] then some .X
  else if cs = ['E'] then some .E
  else if cs = ['S', 'W'] then some .SW
  else if cs = ['S'] then some .S
  else if cs = ['S', 'E'] then some .SE
  else none

/-- Modelled from the spec: `Position.to_human` (from the missing
`position.py`) is the column letter (`A`–`I`) followed by the one-based row
number. -/
def to_human (r c : Nat) : List Char :=
  [Char.ofNat (65 + c), Char.ofNat (49 + r)]

/-- Modelled from the spec: constructing a `Position` from a human label;
malformed or out-of-range labels fail (spec: InvalidPosition). -/
def parseHumanPos (cs : List Char) : Option (Nat × Nat) :=
  match cs with
  | [l, d] =>
    if ('A' ≤ l ∧ l ≤ 'I' ∧ '1' ≤ d ∧ d ≤ '5') then some (d.toNat - 49, l.toNat - 65)
    else none
  | _ => none

/-- Python `"sep".join(pieces)`. -/
def joinSep (sep : List Char) : List (List Char) → List Char
  | [] => []
  | [x] => x
  | x :: xs => x ++ sep ++ joinSep sep xs

/-- Inner loop of `get_board_str` over one row's cells: accumulates the board
string and the pending EMPTY-run counter. -/
def rowLoop : List Piece → List Char → Nat → List Char × Nat
  | [], s, cnt => (s, cnt)
  | p :: rest, s, cnt =>
    match p with
    | .EMPTY => rowLoop rest s (cnt + 1)
    | _ => rowLoop rest (s ++ (if 0 < cnt then natToDecimal cnt else []) ++ strPiece p) 0

/-- Outer loop of `get_board_str` over the rows: after each row, flush the
pending counter and append the `/` separator. -/
def boardLoop : List (List Piece) → List Char → Nat → List Char × Nat
  | [], s, cnt => (s, cnt)
  | row :: rest, s, cnt =>
    let sc := rowLoop row s cnt
    boardLoop rest ((sc.1 ++ (if 0 < sc.2 then natToDecimal sc.2 else [])) ++ ['/']) 0

/-- Board-string part of `get_board_str`: run the loops, strip the trailing
`/`, flush any remaining counter. -/
def boardPart (g : List (List Piece)) : List Char :=
  let sc := boardLoop g [] 0
  let s := rstripSlash sc.1
  if 0 < sc.2 then s ++ natToDecimal sc.2 else s

/-- Human labels of the true `visited` cells, in row-major order
(`get_board_str`'s `visited_pos_list`). -/
def visitedLabels (v : List (List Bool)) : List (List Char) :=
  (v.enum.map fun rc =>
    rc.2.enum.filterMap fun cb => if cb.2 then some (to_human rc.1 cb.1) else none).flatten

/-- Python `FanoronaState.get_board_str`: the five space-separated fields. -/
def get_board_str (s : FanoronaState) : List Char :=
  let labels := visitedLabels s.visited
  let visitedStr := if labels = [] then ['-'] else joinSep [','] labels
  joinSep [' ']
    [boardPart s.board_state, strPiece s.turn_to_play, dirStr s.last_dir,
      visitedStr, intRepr s.half_moves]

/-- Write one grid cell during decoding (`board_state[row][col] = piece`);
out-of-range indices raise (IndexError, a malformed board string). -/
def setGridCell (g : List (List Piece)) (r c : Nat) (p : Piece) :
    Except Err (List (List Piece)) :=
  match g.get? r with
  | none => .error .malformed
  | some row =>
    if c < row.length then .ok (g.set r (row.set c p)) else .error .malformed

/-- The decoder's EMPTY-run loop: write `n` EMPTY cells starting at `c`. -/
def writeRun : List (List Piece) → Nat → Nat → Nat → Except Err (List (List Piece))
  | g, _, _, 0 => .ok g
  | g, r, c, n + 1 => do
    let g' ← setGridCell g r c .EMPTY
    writeRun g' r (c + 1) n

/-- Per-character loop of `process_board_state_str` over one row string.  A
digit `d ≥ 1` writes a run of `d` EMPTY cells and advances the column by `d`;
a digit `0` writes nothing but still advances the column by one (the Python
`for col_board in range(col_board, col_board)` leaves `col_board` unchanged
and the following `col_board += 1` still runs). -/
def decodeRowGo : List Char → List (List Piece) → Nat → Nat → Except Err (List (List Piece))
  | [], g, _, _ => .ok g
  | ch :: rest, g, r, c =>
    if ch = 'W' then do
      let g' ← setGridCell g r c .WHITE
      decodeRowGo rest g' r (c + 1)
    else if ch = 'B' then do
      let g' ← setGridCell g r c .BLACK
      decodeRowGo rest g' r (c + 1)
    else
      match charDigitVal ch with
      | none => .error .malformed
      | some 0 => decodeRowGo rest g r (c + 1)
      | some (d + 1) => do
        let g' ← writeRun g r c (d + 1)
        decodeRowGo rest g' r (c + (d + 1))

/-- The all-EMPTY grid `np.zeros((BOARD_ROWS, BOARD_COLS))`. -/
def zerosGrid : List (List Piece) :=
  List.replicate BOARD_ROWS (List.replicate BOARD_COLS Piece.EMPTY)

/-- Loop of `process_board_state_str` over the row strings. -/
def decodeBoardGo : List (List Char) → Nat → List (List Piece) → Except Err (List (List Piece))
  | [], _, g => .ok g
  | rowChars :: rest, r, g => do
    let g' ← decodeRowGo rowChars g r 0
    decodeBoardGo rest (r + 1) g'

/-- Python `process_board_state_str`. -/
def processBoard (cs : List Char) : Except Err (List (List Piece)) :=
  decodeBoardGo (splitChar '/' cs) 0 zerosGrid

/-- The all-false visited grid. -/
def zerosVisited : List (List Bool) :=
  List.replicate BOARD_ROWS (List.replicate BOARD_COLS false)

/-- Loop of `process_visited_pos_str` over the comma-separated labels. -/
def processVisitedGo : List (List Char) → List (List Bool) → Except Err (List (List Bool))
  | [], v => .ok v
  | label :: rest, v =>
    match parseHumanPos label with
    | none => .error .malformed
    | some rc => processVisitedGo rest (set2 v rc.1 rc.2 true)

/-- Python `process_visited_pos_str`. -/
def processVisited (cs : List Char) : Except Err (List (List Bool)) :=
  if cs = ['-'] then .ok zerosVisited
  else processVisitedGo (splitChar ',' cs) zerosVisited

/-- Python `FanoronaState.set_from_board_str`: split into exactly five
whitespace-separated fields and build each state field in order. -/
def set_from_board_str (cs : List Char) : Except Err FanoronaState :=
  match pySplitWs cs with
  | [b, t, d, v, h] => do
    let grid ← processBoard b
    let turn := if t = ['W'] then Piece.WHITE else Piece.BLACK
    let dir ←
      if d = ['-'] then Except.ok Direction.X
      else
        match dirOfName d with
        | some dd => Except.ok dd
        | none => Except.error Err.malformed
    let vis ← processVisited v
    let hm ←
      match pyInt h with
      | some n => Except.ok n
      | none => Except.error Err.malformed
    Except.ok ⟨grid, turn, dir, vis, hm⟩
  | _ => .error .malformed

/-- The pending-counter flush: the decimal count when it is positive, nothing
otherwise (the `if count > 0` blocks of `get_board_str`). -/
def flushStr (cnt : Nat) : List Char :=
  if 0 < cnt then natToDecimal cnt else []

/-- The encoding of one row continued from a pending counter: the characters
emitted by the cell loop plus the flush of the counter left at the row's
end. -/
def rowEnc (row : List Piece) (cnt : Nat) : List Char :=
  (rowLoop row [] cnt).1 ++ flushStr (rowLoop row [] cnt).2

/-- Overwrite a contiguous segment of a row starting at `col`. -/
def writeList {α : Type} : List α → Nat → List α → List α
  | row, _, [] => row
  | row, col, x :: xs => writeList (row.set col x) (col + 1) xs

/-- The (row, col) positions of the true cells of a visited grid, in the
row-major order of its traversal. -/
def truePos (v : List (List Bool)) : List (Nat × Nat) :=
  (v.enum.map fun rc =>
    rc.2.enum.filterMap fun cb => if cb.2 then some (rc.1, cb.1) else none).flatten

/-- Columns consumed by a row of board-string tokens: one per piece marker,
the digit's value per run token (a junk character consumes nothing — the
decoder rejects it outright). -/
def rowConsume (cs : List Char) : Nat :=
  (cs.map fun ch => if ch = 'W' ∨ ch = 'B' then 1 else (charDigitVal ch).getD 0).sum

/-- The piece stored at a grid cell (direct lookup, EMPTY default for the
statement of in-range reads). -/
def cellAt (g : List (List Piece)) (r c : Nat) : Piece :=
  ((((g.get? r).getD []).get? c).getD Piece.EMPTY)

/-- Method-call semantics of `get_piece`: result plus receiver after the
call.  The Python body contains no assignment to `self`, so the receiver
after the call is the receiver before it. -/
def get_piece_call (s : FanoronaState) (r c : Nat) : Except Err Piece × FanoronaState :=
  (get_piece s r c, s)

/-- Method-call semantics of `count` (no assignment to `self` in the body). -/
def count_call (s : FanoronaState) (side : Piece) : Nat × FanoronaState :=
  (count s side, s)

/-- Method-call semantics of `piece_exists` (no assignment to `self`). -/
def piece_exists_call (s : FanoronaState) (piece : Piece) : Bool × FanoronaState :=
  (piece_exists s piece, s)

/-- Method-call semantics of `is_done` (no assignment to `self`). -/
def is_done_call (MOVE_LIMIT : Int) (s : FanoronaState) : Except Err Bool × FanoronaState :=
  (is_done MOVE_LIMIT s, s)

/-- Method-call semantics of `utility` (no assignment to `self`). -/
def utility_call (MOVE_LIMIT : Int) (s : FanoronaState) (side : Piece) :
    Except Err UtilityVal × FanoronaState :=
  (utility MOVE_LIMIT s side, s)

/-- Method-call semantics of `get_board_str` (no assignment to `self`; the
string accumulation happens in a local variable). -/
def get_board_str_call (s : FanoronaState) : List Char × FanoronaState :=
  (get_board_str s, s)

/-- The cell of a 2D list at (r, c), `none` when out of range. -/
def cell2 {α : Type} (g : List (List α)) (r c : Nat) : Option α :=
  (g.get? r).bind fun row => row.get? c

/-- A concrete mid-game position used by witnesses: the classical starting
material (22 pieces each side), WHITE to move. -/
def S0 : FanoronaState :=
  { board_state :=
      [List.replicate 9 Piece.WHITE,
        List.replicate 9 Piece.WHITE,
        [Piece.BLACK, Piece.WHITE, Piece.BLACK, Piece.WHITE, Piece.EMPTY,
          Piece.BLACK, Piece.WHITE, Piece.BLACK, Piece.WHITE],
        List.replicate 9 Piece.BLACK,
        List.replicate 9 Piece.BLACK],
    turn_to_play := Piece.WHITE,
    last_dir := Direction.X,
    visited := zerosVisited,
    half_moves := 0 }

/-- The state decoded from the all-empty board string. -/
def S9 : FanoronaState :=
  { board_state := zerosGrid, turn_to_play := Piece.WHITE,
    last_dir := Direction.X, visited := zerosVisited, half_moves := 0 }

/-- C4: once `half_moves ≥ MOVE_LIMIT`, the state is terminal and both sides
get DRAW, regardless of the grid contents. -/
theorem c4_move_limit_draw (MOVE_LIMIT : Int) (s : FanoronaState)
    (h : MOVE_LIMIT ≤ s.half_moves) :
    is_done MOVE_LIMIT s = .ok true ∧
    utility MOVE_LIMIT s .WHITE = .ok (.reward .DRAW) ∧
    utility MOVE_LIMIT s .BLACK = .ok (.reward .DRAW) := by
  refine ⟨?_, ?_, ?_⟩ <;> simp [is_done, utility, h]

/-- Witness for C4 at a concrete limit and state. -/
theorem c4_move_limit_draw_witness :
    is_done 44 ⟨zerosGrid, .WHITE, .X, zerosVisited, 44⟩ = .ok true ∧
    utility 44 ⟨zerosGrid, .WHITE, .X, zerosVisited, 44⟩ .WHITE = .ok (.reward .DRAW) ∧
    utility 44 ⟨zerosGrid, .WHITE, .X, zerosVisited, 44⟩ .BLACK = .ok (.reward .DRAW) :=
  c4_move_limit_draw 44 ⟨zerosGrid, .WHITE, .X, zerosVisited, 44⟩ (by norm_num)

/-- C10: every query operation leaves the receiver state unchanged. -/
theorem c10_queries_leave_state_unchanged (MOVE_LIMIT : Int) (s : FanoronaState)
    (r c : Nat) (side piece : Piece) :
    (get_piece_call s r c).2 = s ∧ (count_call s side).2 = s ∧
    (piece_exists_call s piece).2 = s ∧ (is_done_call MOVE_LIMIT s).2 = s ∧
    (utility_call MOVE_LIMIT s side).2 = s ∧ (get_board_str_call s).2 = s :=
  ⟨rfl, rfl, rfl, rfl, rfl, rfl⟩

/-- C8: `get_piece` fails with OutOfRange exactly on positions outside the
grid, and returns the stored piece on positions inside it. -/
theorem c8_get_piece_range (s : FanoronaState) (r c : Nat)
    (hwf : gridWF s.board_state) :
    (¬(r < BOARD_ROWS ∧ c < BOARD_COLS) → get_piece s r c = .error .outOfRange) ∧
    ((r < BOARD_ROWS ∧ c < BOARD_COLS) → get_piece s r c = .ok (cellAt s.board_state r c)) := by
  obtain ⟨hlen, hrows⟩ := hwf
  constructor
  · intro hnot
    unfold get_piece
    cases hg : s.board_state.get? r with
    | none => rfl
    | some row =>
      have hrlt : r < s.board_state.length := by
        by_contra hge
        rw [List.get?_eq_none.mpr (le_of_not_lt hge)] at hg
        exact Option.noConfusion hg
      have hrowlen : row.length = BOARD_COLS := hrows row (List.get?_mem hg)
      have hc : ¬ c < BOARD_COLS := fun hc => hnot ⟨hlen ▸ hrlt, hc⟩
      have hg2 : row.get? c = none :=
        List.get?_eq_none.mpr (le_of_not_lt (hrowlen ▸ hc))
      rw [List.get?_eq_getElem?] at hg2
      simp [hg2]
  · rintro ⟨hr, hc⟩
    have hrlt : r < s.board_state.length := hlen ▸ hr
    obtain ⟨row, hg⟩ : ∃ row, s.board_state.get? r = some row :=
      ⟨_, List.get?_eq_get hrlt⟩
    have hrowlen : row.length = BOARD_COLS := hrows row (List.get?_mem hg)
    have hclt : c < row.length := hrowlen ▸ hc
    obtain ⟨p, hg2⟩ : ∃ p, row.get? c = some p := ⟨_, List.get?_eq_get hclt⟩
    rw [List.get?_eq_getElem?] at hg hg2
    simp [get_piece, cellAt, List.get?_eq_getElem?, hg, hg2]

/-- Witness for C8 at a concrete state and position. -/
theorem c8_get_piece_range_witness :
    (¬(1 < BOARD_ROWS ∧ 3 < BOARD_COLS) →
      get_piece ⟨zerosGrid, .WHITE, .X, zerosVisited, 0⟩ 1 3 = .error .outOfRange) ∧
    ((1 < BOARD_ROWS ∧ 3 < BOARD_COLS) →
      get_piece ⟨zerosGrid, .WHITE, .X, zerosVisited, 0⟩ 1 3 =
        .ok (cellAt zerosGrid 1 3)) :=
  c8_get_piece_range ⟨zerosGrid, .WHITE, .X, zerosVisited, 0⟩ 1 3
    (by unfold gridWF zerosGrid BOARD_ROWS BOARD_COLS; decide)

/-- C3: `is_done` is true exactly when the move limit is hit or one of the
two sides has no pieces left (the opponent is taken through `other_side`,
which requires a WHITE/BLACK side to move). -/
theorem c3_is_done_iff (MOVE_LIMIT : Int) (s : FanoronaState) (othr : Piece)
    (h : other_side s = .ok othr) :
    (is_done MOVE_LIMIT s = .ok true ∨ is_done MOVE_LIMIT s = .ok false) ∧
    (is_done MOVE_LIMIT s = .ok true ↔
      MOVE_LIMIT ≤ s.half_moves ∨ piece_exists s s.turn_to_play = false ∨
        piece_exists s othr = false) := by
  unfold is_done
  by_cases hm : MOVE_LIMIT ≤ s.half_moves
  · simp [hm]
  · simp only [if_neg hm]
    cases hown : piece_exists s s.turn_to_play <;>
      cases hoth2 : piece_exists s othr <;>
        simp [h, hm, Bind.bind, Except.bind, hown, hoth2]

/-- Witness for C3 on the all-empty board. -/
theorem c3_is_done_iff_witness :
    other_side ⟨zerosGrid, .WHITE, .X, zerosVisited, 0⟩ = .ok Piece.BLACK ∧
    ((is_done 44 ⟨zerosGrid, .WHITE, .X, zerosVisited, 0⟩ = .ok true ∨
        is_done 44 ⟨zerosGrid, .WHITE, .X, zerosVisited, 0⟩ = .ok false) ∧
      (is_done 44 ⟨zerosGrid, .WHITE, .X, zerosVisited, 0⟩ = .ok true ↔
        (44 : Int) ≤ 0 ∨
          piece_exists ⟨zerosGrid, .WHITE, .X, zerosVisited, 0⟩ Piece.WHITE = false ∨
          piece_exists ⟨zerosGrid, .WHITE, .X, zerosVisited, 0⟩ Piece.BLACK = false)) :=
  ⟨rfl, c3_is_done_iff 44 ⟨zerosGrid, .WHITE, .X, zerosVisited, 0⟩ Piece.BLACK rfl⟩

/-- C2: below the move limit, `utility` is the material difference on a
non-terminal state; on a piece-exhaustion terminal state, exactly one of the
two colours gets WIN and the other LOSS, and whichever of the side to move /
its opponent still has pieces is the winner. -/
theorem c2_utility_shape (MOVE_LIMIT : Int) (s : FanoronaState) (othr : Piece)
    (hoth : other_side s = .ok othr) (hm : s.half_moves < MOVE_LIMIT) :
    (piece_exists s s.turn_to_play = true → piece_exists s othr = true →
      ∀ side so, Piece.other side = .ok so →
        utility MOVE_LIMIT s side =
          .ok (.heur ((count s side : Int) - (count s so : Int)))) ∧
    (¬(piece_exists s s.turn_to_play = true ∧ piece_exists s othr = true) →
      ((utility MOVE_LIMIT s .WHITE = .ok (.reward .WIN) ∧
          utility MOVE_LIMIT s .BLACK = .ok (.reward .LOSS)) ∨
        (utility MOVE_LIMIT s .WHITE = .ok (.reward .LOSS) ∧
          utility MOVE_LIMIT s .BLACK = .ok (.reward .WIN))) ∧
      (piece_exists s s.turn_to_play = true →
        utility MOVE_LIMIT s s.turn_to_play = .ok (.reward .WIN)) ∧
      (piece_exists s othr = true →
        utility MOVE_LIMIT s othr = .ok (.reward .WIN))) := by
  have hm' : ¬ MOVE_LIMIT ≤ s.half_moves := not_le.mpr hm
  have hturn : s.turn_to_play = Piece.WHITE ∧ othr = Piece.BLACK ∨
      s.turn_to_play = Piece.BLACK ∧ othr = Piece.WHITE := by
    unfold other_side Piece.other at hoth
    cases ht : s.turn_to_play <;> rw [ht] at hoth
    · exact absurd hoth (by simp)
    · exact Or.inl ⟨rfl, by injection hoth with h; exact h.symm⟩
    · exact Or.inr ⟨rfl, by injection hoth with h; exact h.symm⟩
  constructor
  · intro hown hothx side so hso
    have : is_done MOVE_LIMIT s = .ok false := by
      unfold is_done
      simp [hm', hoth, Bind.bind, Except.bind, hown, hothx]
    unfold utility
    simp [hm', this, Bind.bind, Except.bind, hso]
  · intro hnotboth
    have hdone : is_done MOVE_LIMIT s = .ok true := by
      unfold is_done
      rcases Bool.eq_false_or_eq_true (piece_exists s s.turn_to_play) with hw | hw <;>
        rcases Bool.eq_false_or_eq_true (piece_exists s othr) with hb | hb <;>
          simp [hm', hoth, Bind.bind, Except.bind, hw, hb] <;>
            exact absurd ⟨hw, hb⟩ hnotboth
    rcases Bool.eq_false_or_eq_true (piece_exists s s.turn_to_play) with hw | hw
    · -- the side to move still has pieces: it is the winner
      have hwin : ∀ side : Piece,
          utility MOVE_LIMIT s side =
            .ok (.reward (if side = s.turn_to_play then .WIN else .LOSS)) := by
        intro side
        by_cases hs : side = s.turn_to_play <;>
          simp [utility, hm', hdone, hw, Bind.bind, Except.bind,
            Pure.pure, Except.pure, hs]
      refine ⟨?_, ?_, ?_⟩
      · rcases hturn with ⟨ht, ho⟩ | ⟨ht, ho⟩
        · exact Or.inl ⟨by rw [hwin, ht]; simp, by rw [hwin, ht]; simp⟩
        · exact Or.inr ⟨by rw [hwin, ht]; simp, by rw [hwin, ht]; simp⟩
      · intro _; rw [hwin]; simp
      · intro hcontra
        exact absurd ⟨hw, hcontra⟩ hnotboth
    · -- the side to move has no pieces: the winner is the opponent
      have hwin : ∀ side : Piece,
          utility MOVE_LIMIT s side =
            .ok (.reward (if side = othr then .WIN else .LOSS)) := by
        intro side
        by_cases hs : side = othr <;>
          simp [utility, hm', hdone, hw, hoth, Bind.bind, Except.bind,
            Pure.pure, Except.pure, hs]
      refine ⟨?_, ?_, ?_⟩
      · rcases hturn with ⟨ht, ho⟩ | ⟨ht, ho⟩
        · exact Or.inr ⟨by rw [hwin, ho]; simp, by rw [hwin, ho]; simp⟩
        · exact Or.inl ⟨by rw [hwin, ho]; simp, by rw [hwin, ho]; simp⟩
      · intro hcontra; simp [hw] at hcontra
      · intro _; rw [hwin]; simp

/-- Witness for C2, non-terminal branch, at the starting material. -/
theorem c2_utility_shape_witness :
    utility 44 S0 Piece.WHITE =
      .ok (.heur ((count S0 Piece.WHITE : Int) - (count S0 Piece.BLACK : Int))) :=
  (c2_utility_shape 44 S0 Piece.BLACK rfl (by decide)).1
    (by decide) (by decide) Piece.WHITE Piece.BLACK rfl

/-- C6: decoding the all-empty board with WHITE to move gives zero counts,
a terminal state, LOSS for WHITE and WIN for BLACK. -/
theorem c6_empty_board_scenario (MOVE_LIMIT : Int) (h : 0 < MOVE_LIMIT) :
    ∃ s, set_from_board_str ("9/9/9/9/9 W - - 0".data) = .ok s ∧
      count s .WHITE = 0 ∧ count s .BLACK = 0 ∧
      is_done MOVE_LIMIT s = .ok true ∧
      utility MOVE_LIMIT s .WHITE = .ok (.reward .LOSS) ∧
      utility MOVE_LIMIT s .BLACK = .ok (.reward .WIN) := by
  have hnle : ¬ MOVE_LIMIT ≤ S9.half_moves := by
    show ¬ MOVE_LIMIT ≤ (0 : Int)
    omega
  refine ⟨S9, by decide, by decide, by decide, ?_, ?_, ?_⟩
  · have : is_done MOVE_LIMIT S9 =
        (do
          let own := piece_exists S9 S9.turn_to_play
          let othr ← other_side S9
          let other_exists := piece_exists S9 othr
          if own && other_exists then .ok false else .ok true) := by
      unfold is_done
      rw [if_neg hnle]
    rw [this]
    decide
  · have : utility MOVE_LIMIT S9 .WHITE =
        (do
          let d ← is_done MOVE_LIMIT S9
          if d then do
            let winner ←
              if piece_exists S9 S9.turn_to_play then pure S9.turn_to_play
              else other_side S9
            if Piece.WHITE = winner then Except.ok (.reward .WIN)
            else Except.ok (.reward .LOSS)
          else do
            let so ← Piece.other .WHITE
            Except.ok (.heur ((count S9 .WHITE : Int) - (count S9 so : Int)))) := by
      unfold utility
      rw [if_neg hnle]
    rw [this]
    have hd : is_done MOVE_LIMIT S9 = .ok true := by
      unfold is_done
      rw [if_neg hnle]
      decide
    rw [hd]
    decide
  · have : utility MOVE_LIMIT S9 .BLACK =
        (do
          let d ← is_done MOVE_LIMIT S9
          if d then do
            let winner ←
              if piece_exists S9 S9.turn_to_play then pure S9.turn_to_play
              else other_side S9
            if Piece.BLACK = winner then Except.ok (.reward .WIN)
            else Except.ok (.reward .LOSS)
          else do
            let so ← Piece.other .BLACK
            Except.ok (.heur ((count S9 .BLACK : Int) - (count S9 so : Int)))) := by
      unfold utility
      rw [if_neg hnle]
    rw [this]
    have hd : is_done MOVE_LIMIT S9 = .ok true := by
      unfold is_done
      rw [if_neg hnle]
      decide
    rw [hd]
    decide

/-- Witness for C6 at a concrete positive limit. -/
theorem c6_empty_board_scenario_witness :
    ∃ s, set_from_board_str ("9/9/9/9/9 W - - 0".data) = .ok s ∧
      count s .WHITE = 0 ∧ count s .BLACK = 0 ∧
      is_done 44 s = .ok true ∧
      utility 44 s .WHITE = .ok (.reward .LOSS) ∧
      utility 44 s .BLACK = .ok (.reward .WIN) :=
  c6_empty_board_scenario 44 (by norm_num)

theorem length_set2 {α : Type} (g : List (List α)) (r c : Nat) (x : α) :
    (set2 g r c x).length = g.length :=
  List.length_set ..

theorem rowlen_set2 {α : Type} (g : List (List α)) (r c : Nat) (x : α) (r' : Nat) :
    ((set2 g r c x).get? r').map List.length = (g.get? r').map List.length := by
  unfold set2
  rw [List.get?_set]
  by_cases hr : r = r'
  · subst hr
    cases hg : g.get? r with
    | none => simp
    | some row => simp [hg]
  · rw [if_neg hr]

theorem cell2_set2 {α : Type} (g : List (List α)) (r c : Nat) (x : α) (r' c' : Nat) :
    cell2 (set2 g r c x) r' c' =
      if r = r' ∧ c = c' ∧ (cell2 g r c).isSome then some x else cell2 g r' c' := by
  unfold cell2 set2
  rw [List.get?_set]
  by_cases hr : r = r'
  · subst hr
    rw [if_pos rfl]
    cases hg : g.get? r with
    | none => simp [hg]
    | some row =>
      simp only [hg, Option.getD_some, true_and]
      show (row.set c x).get? c' =
        if c = c' ∧ ((some row).bind fun row => row.get? c).isSome = true then some x
        else row.get? c'
      rw [List.get?_set]
      by_cases hc : c = c'
      · subst hc
        rw [if_pos rfl]
        cases hgc : row.get? c with
        | none => rw [List.get?_eq_getElem?] at hgc; simp [hgc]
        | some p => rw [List.get?_eq_getElem?] at hgc; simp [hgc]
      · simp [hc]
  · simp [hr]

theorem cell2_foldl_set2 {α : Type} (x : α) (ps : List (Nat × Nat))
    (v : List (List α)) (r c : Nat) :
    cell2 (ps.foldl (fun w q => set2 w q.1 q.2 x) v) r c =
      if (r, c) ∈ ps ∧ (cell2 v r c).isSome then some x else cell2 v r c := by
  induction ps generalizing v with
  | nil => simp
  | cons q ps ih =>
    obtain ⟨qr, qc⟩ := q
    have hiso : (cell2 (set2 v qr qc x) r c).isSome = (cell2 v r c).isSome := by
      rw [cell2_set2]
      by_cases h : qr = r ∧ qc = c ∧ (cell2 v qr qc).isSome
      · rw [if_pos h]
        obtain ⟨rfl, rfl, h3⟩ := h
        simp [h3]
      · rw [if_neg h]
    simp only [List.foldl_cons]
    rw [ih, hiso, cell2_set2]
    by_cases h3 : (cell2 v r c).isSome = true
    · by_cases h1 : (r, c) ∈ ps
      · simp [h1, h3, List.mem_cons]
      · by_cases h2 : qr = r ∧ qc = c
        · obtain ⟨rfl, rfl⟩ := h2
          simp [h1, h3, List.mem_cons]
        · have hne : ¬ ((r, c) = (qr, qc)) := by
            intro h
            obtain ⟨h4, h5⟩ := Prod.mk.injEq .. ▸ h
            exact h2 ⟨h4.symm, h5.symm⟩
          simp only [List.mem_cons, hne, false_or, h1, h3, and_true, if_neg,
            if_false, ite_eq_right_iff, and_imp]
          intro h4 h5 _
          exact absurd ⟨h4, h5⟩ h2
    · have hcond1 : ¬ ((r, c) ∈ ps ∧ (cell2 v r c).isSome = true) := fun h => h3 h.2
      have hcond2 : ¬ (qr = r ∧ qc = c ∧ (cell2 v qr qc).isSome = true) := by
        by_cases h2 : qr = r ∧ qc = c
        · obtain ⟨rfl, rfl⟩ := h2
          exact fun h => h3 h.2.2
        · exact fun h => h2 ⟨h.1, h.2.1⟩
      have hcond3 : ¬ ((r, c) ∈ (qr, qc) :: ps ∧ (cell2 v r c).isSome = true) :=
        fun h => h3 h.2
      rw [if_neg hcond1, if_neg hcond2, if_neg hcond3]

theorem length_foldl_set2 {α : Type} (x : α) (ps : List (Nat × Nat))
    (v : List (List α)) :
    (ps.foldl (fun w q => set2 w q.1 q.2 x) v).length = v.length := by
  induction ps generalizing v with
  | nil => rfl
  | cons q ps ih => simp only [List.foldl_cons]; rw [ih, length_set2]

theorem rowlen_foldl_set2 {α : Type} (x : α) (ps : List (Nat × Nat))
    (v : List (List α)) (r : Nat) :
    ((ps.foldl (fun w q => set2 w q.1 q.2 x) v).get? r).map List.length =
      (v.get? r).map List.length := by
  induction ps generalizing v with
  | nil => rfl
  | cons q ps ih => simp only [List.foldl_cons]; rw [ih, rowlen_set2]

theorem mem_pos_range (r c : Nat) :
    (r, c) ∈ pos_range ↔ r < BOARD_ROWS ∧ c < BOARD_COLS := by
  simp [pos_range, List.mem_flatten, List.mem_map, List.mem_range]

/-- C9: `reset_visited_pos` makes every `visited` cell false and leaves the
other four state fields untouched. -/
theorem c9_reset_visited_pos (s : FanoronaState) (hwf : gridWF s.visited) :
    (reset_visited_pos s).visited = zerosVisited ∧
    (reset_visited_pos s).board_state = s.board_state ∧
    (reset_visited_pos s).turn_to_play = s.turn_to_play ∧
    (reset_visited_pos s).last_dir = s.last_dir ∧
    (reset_visited_pos s).half_moves = s.half_moves := by
  obtain ⟨hlen, hrows⟩ := hwf
  simp only [reset_visited_pos]
  refine ⟨?_, trivial, trivial, trivial, trivial⟩
  show pos_range.foldl (fun v q => set2 v q.1 q.2 false) s.visited = zerosVisited
  apply List.ext
  intro r
  have hrowlen := rowlen_foldl_set2 false pos_range s.visited r
  by_cases hr : r < BOARD_ROWS
  · obtain ⟨row, hvrow⟩ : ∃ row, s.visited.get? r = some row :=
      ⟨_, List.get?_eq_get (hlen ▸ hr)⟩
    have hrl : row.length = BOARD_COLS := hrows row (List.get?_mem hvrow)
    obtain ⟨wrow, hwrow⟩ :
        ∃ wrow, (pos_range.foldl (fun v q => set2 v q.1 q.2 false) s.visited).get? r
          = some wrow := by
      cases hw : (pos_range.foldl (fun v q => set2 v q.1 q.2 false) s.visited).get? r with
      | none => rw [hw, hvrow] at hrowlen; simp at hrowlen
      | some wrow => exact ⟨wrow, rfl⟩
    have hwl : wrow.length = BOARD_COLS := by
      rw [hwrow, hvrow] at hrowlen
      simp only [Option.map_some'] at hrowlen
      rw [Option.some.injEq] at hrowlen
      rw [hrowlen, hrl]
    have hz : zerosVisited.get? r = some (List.replicate BOARD_COLS false) := by
      unfold zerosVisited
      simp [List.get?_eq_getElem?, List.getElem?_replicate, hr]
    rw [hwrow, hz, Option.some.injEq]
    refine List.eq_replicate.mpr ⟨hwl, ?_⟩
    intro b hb
    obtain ⟨c, hc⟩ := List.mem_iff_get?.mp hb
    have hclt : c < BOARD_COLS := by
      rw [← hwl]
      obtain ⟨h, _⟩ := List.get?_eq_some.mp hc
      exact h
    have hcell : cell2 (pos_range.foldl (fun v q => set2 v q.1 q.2 false) s.visited) r c
        = some b := by
      unfold cell2
      rw [hwrow]
      simpa using hc
    rw [cell2_foldl_set2] at hcell
    have hmem : (r, c) ∈ pos_range := (mem_pos_range r c).mpr ⟨hr, hclt⟩
    have hsome : (cell2 s.visited r c).isSome = true := by
      unfold cell2
      rw [hvrow]
      obtain ⟨p, hp⟩ : ∃ p, row.get? c = some p := ⟨_, List.get?_eq_get (hrl ▸ hclt)⟩
      rw [List.get?_eq_getElem?] at hp
      simp [hp]
    rw [if_pos ⟨hmem, hsome⟩] at hcell
    exact (Option.some_inj.mp hcell).symm
  · have h1 : s.visited.get? r = none :=
      List.get?_eq_none.mpr (hlen ▸ le_of_not_lt hr)
    have h2 : (pos_range.foldl (fun v q => set2 v q.1 q.2 false) s.visited).get? r
        = none := by
      rw [h1] at hrowlen
      exact Option.map_eq_none'.mp hrowlen
    have h3 : zerosVisited.get? r = none := by
      unfold zerosVisited
      exact List.get?_eq_none.mpr (by rw [List.length_replicate]; exact le_of_not_lt hr)
    rw [h2, h3]

/-- Witness for C9 at a concrete state with visited cells set. -/
theorem c9_reset_visited_pos_witness :
    (reset_visited_pos { S0 with visited := set2 zerosVisited 2 4 true }).visited
        = zerosVisited ∧
    (reset_visited_pos { S0 with visited := set2 zerosVisited 2 4 true }).board_state
        = ({ S0 with visited := set2 zerosVisited 2 4 true } : FanoronaState).board_state ∧
    (reset_visited_pos { S0 with visited := set2 zerosVisited 2 4 true }).turn_to_play
        = ({ S0 with visited := set2 zerosVisited 2 4 true } : FanoronaState).turn_to_play ∧
    (reset_visited_pos { S0 with visited := set2 zerosVisited 2 4 true }).last_dir
        = ({ S0 with visited := set2 zerosVisited 2 4 true } : FanoronaState).last_dir ∧
    (reset_visited_pos { S0 with visited := set2 zerosVisited 2 4 true }).half_moves
        = ({ S0 with visited := set2 zerosVisited 2 4 true } : FanoronaState).half_moves :=
  c9_reset_visited_pos { S0 with visited := set2 zerosVisited 2 4 true }
    (by unfold gridWF set2 zerosVisited BOARD_ROWS BOARD_COLS; decide)

theorem natToDecimal_ne_nil (n : Nat) : natToDecimal n ≠ [] := by
  unfold natToDecimal
  by_cases h : n = 0
  · simp [h]
  · rw [if_neg h]
    obtain ⟨m, rfl⟩ : ∃ m, n = m + 1 := ⟨n - 1, by omega⟩
    unfold natDigitsRevFuel
    rw [if_neg h]
    simp

theorem natToDecimal_small (n : Nat) (h1 : 1 ≤ n) (h9 : n ≤ 9) :
    natToDecimal n = [Nat.digitChar n] ∧
    charDigitVal (Nat.digitChar n) = some n ∧
    ('1' ≤ Nat.digitChar n ∧ Nat.digitChar n ≤ '9') := by
  interval_cases n <;> exact (by decide)

theorem rowLoop_append (row : List Piece) (s1 : List Char) :
    ∀ (s2 : List Char) (cnt : Nat),
      rowLoop row (s1 ++ s2) cnt = (s1 ++ (rowLoop row s2 cnt).1, (rowLoop row s2 cnt).2) := by
  induction row with
  | nil => intro s2 cnt; rfl
  | cons p rest ih =>
    intro s2 cnt
    cases p with
    | EMPTY => exact ih s2 (cnt + 1)
    | WHITE =>
      show rowLoop rest ((s1 ++ s2) ++ (if 0 < cnt then natToDecimal cnt else [])
        ++ strPiece .WHITE) 0 = _
      have hassoc : (s1 ++ s2) ++ (if 0 < cnt then natToDecimal cnt else [])
          ++ strPiece .WHITE
          = s1 ++ (s2 ++ (if 0 < cnt then natToDecimal cnt else []) ++ strPiece .WHITE) := by
        simp
      rw [hassoc, ih]
      rfl
    | BLACK =>
      show rowLoop rest ((s1 ++ s2) ++ (if 0 < cnt then natToDecimal cnt else [])
        ++ strPiece .BLACK) 0 = _
      have hassoc : (s1 ++ s2) ++ (if 0 < cnt then natToDecimal cnt else [])
          ++ strPiece .BLACK
          = s1 ++ (s2 ++ (if 0 < cnt then natToDecimal cnt else []) ++ strPiece .BLACK) := by
        simp
      rw [hassoc, ih]
      rfl

theorem rowLoop_s (row : List Piece) (s : List Char) (cnt : Nat) :
    rowLoop row s cnt = (s ++ (rowLoop row [] cnt).1, (rowLoop row [] cnt).2) := by
  have h := rowLoop_append row s [] cnt
  rw [List.append_nil] at h
  exact h

theorem rowEnc_nil (cnt : Nat) : rowEnc [] cnt = flushStr cnt := by
  simp [rowEnc, rowLoop, flushStr]

theorem rowEnc_empty (r : List Piece) (cnt : Nat) :
    rowEnc (Piece.EMPTY :: r) cnt = rowEnc r (cnt + 1) := by
  simp only [rowEnc]
  rfl

theorem rowEnc_piece (p : Piece) (hp : p ≠ .EMPTY) (r : List Piece) (cnt : Nat) :
    rowEnc (p :: r) cnt = flushStr cnt ++ strPiece p ++ rowEnc r 0 := by
  cases p with
  | EMPTY => exact absurd rfl hp
  | WHITE =>
    simp only [rowEnc]
    have h2 : rowLoop (Piece.WHITE :: r) [] cnt
        = rowLoop r (([] : List Char) ++ (if 0 < cnt then natToDecimal cnt else []) ++ strPiece .WHITE) 0 := rfl
    rw [h2, rowLoop_s]
    simp [flushStr]
  | BLACK =>
    simp only [rowEnc]
    have h2 : rowLoop (Piece.BLACK :: r) [] cnt
        = rowLoop r (([] : List Char) ++ (if 0 < cnt then natToDecimal cnt else []) ++ strPiece .BLACK) 0 := rfl
    rw [h2, rowLoop_s]
    simp [flushStr]

theorem flushStr_chars (cnt : Nat) (h : cnt ≤ 9) :
    ∀ ch ∈ flushStr cnt, '1' ≤ ch ∧ ch ≤ '9' := by
  unfold flushStr
  split
  · next h0 =>
    obtain ⟨he, _, hb⟩ := natToDecimal_small cnt h0 h
    rw [he]
    intro ch hch
    rw [List.mem_singleton] at hch
    rw [hch]
    exact hb
  · intro ch hch
    exact absurd hch (List.not_mem_nil ch)

theorem rowEnc_chars (r : List Piece) :
    ∀ cnt, cnt + r.length ≤ 9 →
      ∀ ch ∈ rowEnc r cnt, ('1' ≤ ch ∧ ch ≤ '9') ∨ ch = 'W' ∨ ch = 'B' := by
  induction r with
  | nil =>
    intro cnt h ch hch
    rw [rowEnc_nil] at hch
    exact Or.inl (flushStr_chars cnt (by simpa using h) ch hch)
  | cons p rest ih =>
    intro cnt h ch hch
    cases p with
    | EMPTY =>
      rw [rowEnc_empty] at hch
      exact ih (cnt + 1) (by simp at h; omega) ch hch
    | WHITE =>
      rw [rowEnc_piece _ (by simp) _ _] at hch
      simp only [List.append_assoc, List.mem_append] at hch
      rcases hch with hch | hch | hch
      · exact Or.inl (flushStr_chars cnt (by simp at h; omega) ch hch)
      · rw [show strPiece .WHITE = ['W'] from rfl, List.mem_singleton] at hch
        exact Or.inr (Or.inl hch)
      · exact ih 0 (by simp at h; omega) ch hch
    | BLACK =>
      rw [rowEnc_piece _ (by simp) _ _] at hch
      simp only [List.append_assoc, List.mem_append] at hch
      rcases hch with hch | hch | hch
      · exact Or.inl (flushStr_chars cnt (by simp at h; omega) ch hch)
      · rw [show strPiece .BLACK = ['B'] from rfl, List.mem_singleton] at hch
        exact Or.inr (Or.inr hch)
      · exact ih 0 (by simp at h; omega) ch hch

theorem rowEnc_ne_nil (r : List Piece) :
    ∀ cnt, r ≠ [] ∨ 0 < cnt → rowEnc r cnt ≠ [] := by
  induction r with
  | nil =>
    intro cnt h
    rcases h with h | h
    · exact absurd rfl h
    · rw [rowEnc_nil]
      unfold flushStr
      rw [if_pos h]
      exact natToDecimal_ne_nil cnt
  | cons p rest ih =>
    intro cnt _
    cases p with
    | EMPTY =>
      rw [rowEnc_empty]
      exact ih (cnt + 1) (Or.inr (Nat.succ_pos cnt))
    | WHITE =>
      rw [rowEnc_piece _ (by simp) _ _]
      intro heq
      rw [List.append_assoc, List.append_eq_nil] at heq
      exact absurd heq.2 (by simp [strPiece])
    | BLACK =>
      rw [rowEnc_piece _ (by simp) _ _]
      intro heq
      rw [List.append_assoc, List.append_eq_nil] at heq
      exact absurd heq.2 (by simp [strPiece])

theorem rowEnc_replicate (n : Nat) (r : List Piece) (cnt : Nat) :
    rowEnc (List.replicate n .EMPTY ++ r) cnt = rowEnc r (cnt + n) := by
  induction n generalizing cnt with
  | zero => simp
  | succ m ih =>
    rw [List.replicate_succ, List.cons_append, rowEnc_empty, ih]
    congr 1
    omega

theorem boardLoop_eq (rows : List (List Piece)) :
    ∀ s, boardLoop rows s 0 =
      (s ++ (rows.map fun row => rowEnc row 0 ++ ['/']).flatten, 0) := by
  induction rows with
  | nil => intro s; simp [boardLoop]
  | cons row rest ih =>
    intro s
    show boardLoop rest
      ((rowLoop row s 0).1 ++ (if 0 < (rowLoop row s 0).2
        then natToDecimal (rowLoop row s 0).2 else []) ++ ['/']) 0 = _
    rw [rowLoop_s row s 0]
    have hflush : (s ++ (rowLoop row [] 0).1)
        ++ (if 0 < (rowLoop row [] 0).2 then natToDecimal (rowLoop row [] 0).2 else [])
        ++ ['/']
        = s ++ (rowEnc row 0 ++ ['/']) := by
      simp [rowEnc, flushStr]
    rw [hflush, ih]
    simp

theorem mem_joinSep (sep ch : Char) :
    ∀ pieces, ch ∈ joinSep [sep] pieces → ch = sep ∨ ∃ x ∈ pieces, ch ∈ x := by
  intro pieces
  induction pieces with
  | nil => intro h; exact absurd h (List.not_mem_nil ch)
  | cons x xs ih =>
    cases xs with
    | nil =>
      intro h
      exact Or.inr ⟨x, List.mem_singleton_self x, h⟩
    | cons y ys =>
      intro h
      show ch = sep ∨ ∃ z ∈ x :: y :: ys, ch ∈ z
      rw [show joinSep [sep] (x :: y :: ys) = x ++ [sep] ++ joinSep [sep] (y :: ys) from rfl] at h
      simp only [List.append_assoc, List.mem_append, List.mem_singleton] at h
      rcases h with h | h | h
      · exact Or.inr ⟨x, by simp, h⟩
      · exact Or.inl h
      · rcases ih h with h | ⟨z, hz, hch⟩
        · exact Or.inl h
        · exact Or.inr ⟨z, by simp [hz], hch⟩

theorem flatten_slash_eq_joinSep (encs : List (List Char)) (hne : encs ≠ []) :
    (encs.map fun e => e ++ ['/']).flatten = joinSep ['/'] encs ++ ['/'] := by
  induction encs with
  | nil => exact absurd rfl hne
  | cons e rest ih =>
    cases rest with
    | nil => simp [joinSep]
    | cons f fs =>
      show (e ++ ['/']) ++ ((f :: fs).map fun e => e ++ ['/']).flatten = _
      rw [ih (by simp)]
      show _ = (e ++ ['/'] ++ joinSep ['/'] (f :: fs)) ++ ['/']
      simp

theorem joinSep_reverse_head (pieces : List (List Char)) (hne : pieces ≠ [])
    (hx : ∀ x ∈ pieces, x ≠ [] ∧ '/' ∉ x) :
    ∃ c rest, (joinSep ['/'] pieces).reverse = c :: rest ∧ c ≠ '/' := by
  induction pieces with
  | nil => exact absurd rfl hne
  | cons x xs ih =>
    cases xs with
    | nil =>
      obtain ⟨hxe, hxs⟩ := hx x (by simp)
      show ∃ c rest, x.reverse = c :: rest ∧ c ≠ '/'
      cases hr : x.reverse with
      | nil => exact absurd (by simpa using congrArg List.reverse hr) hxe
      | cons c rest =>
        refine ⟨c, rest, rfl, ?_⟩
        have : c ∈ x := by
          have : c ∈ x.reverse := by rw [hr]; simp
          simpa using this
        intro hc
        exact hxs (hc ▸ this)
    | cons y ys =>
      obtain ⟨c, rest, hrev, hc⟩ := ih (by simp)
        (fun z hz => hx z (List.mem_cons_of_mem x hz))
      refine ⟨c, rest ++ ['/'] ++ x.reverse, ?_, hc⟩
      show (x ++ ['/'] ++ joinSep ['/'] (y :: ys)).reverse = _
      rw [List.append_assoc, List.reverse_append, List.reverse_append, hrev]
      simp

theorem rstripSlash_append (j : List Char)
    (h : ∃ c rest, j.reverse = c :: rest ∧ c ≠ '/') :
    rstripSlash (j ++ ['/']) = j := by
  obtain ⟨c, rest, hrev, hc⟩ := h
  unfold rstripSlash
  rw [List.reverse_append]
  show (List.dropWhile (fun c => c == '/') ('/' :: j.reverse)).reverse = j
  rw [List.dropWhile_cons_of_pos (by simp), hrev,
    List.dropWhile_cons_of_neg (by simpa using hc), ← hrev]
  simp

theorem boardPart_eq_joinSep (g : List (List Piece)) (hne : g ≠ [])
    (hrows : ∀ row ∈ g, row.length = BOARD_COLS) :
    boardPart g = joinSep ['/'] (g.map fun row => rowEnc row 0) := by
  unfold boardPart
  rw [boardLoop_eq g []]
  simp only [List.nil_append]
  rw [if_neg (by omega)]
  have hmm : List.map (fun row => rowEnc row 0 ++ ['/']) g
      = List.map (fun e => e ++ ['/']) (List.map (fun row => rowEnc row 0) g) := by
    rw [List.map_map]
    rfl
  rw [hmm, flatten_slash_eq_joinSep _ (by simpa using hne)]
  apply rstripSlash_append
  apply joinSep_reverse_head _ (by simpa using hne)
  intro x hx
  rw [List.mem_map] at hx
  obtain ⟨row, hrow, rfl⟩ := hx
  constructor
  · exact rowEnc_ne_nil row 0 (Or.inl (by
      intro h
      have := hrows row hrow
      rw [h] at this
      simp [BOARD_COLS] at this))
  · intro hmem
    have hcl := rowEnc_chars row 0 (by rw [hrows row hrow]; simp [BOARD_COLS]) '/' hmem
    rcases hcl with ⟨h1, _⟩ | h | h
    · exact absurd h1 (by decide)
    · exact absurd h (by decide)
    · exact absurd h (by decide)

/-- C7: the board string never contains a `0` run token; it is the `/`-join
of the per-row encodings (so every pending run is flushed before the row
separator and at the end); a pending run is flushed as its decimal count
before each piece letter; and a row of nine EMPTY cells encodes as the
single token `9`. -/
theorem c7_run_length_encoding (g : List (List Piece)) (hwf : gridWF g) :
    (∀ ch ∈ boardPart g, ch ≠ '0') ∧
    boardPart g = joinSep ['/'] (g.map fun row => rowEnc row 0) ∧
    (∀ (n : Nat) (p : Piece) (rest : List Piece), p ≠ .EMPTY →
      rowEnc (List.replicate (n + 1) .EMPTY ++ p :: rest) 0 =
        natToDecimal (n + 1) ++ strPiece p ++ rowEnc rest 0) ∧
    rowEnc (List.replicate BOARD_COLS .EMPTY) 0 = ['9'] := by
  obtain ⟨hlen, hrows⟩ := hwf
  have hne : g ≠ [] := by
    intro h
    rw [h] at hlen
    simp [BOARD_ROWS] at hlen
  have hb := boardPart_eq_joinSep g hne hrows
  refine ⟨?_, hb, ?_, by decide⟩
  · intro ch hch
    rw [hb] at hch
    rcases mem_joinSep '/' ch _ hch with h | ⟨x, hx, hchx⟩
    · rw [h]; decide
    · rw [List.mem_map] at hx
      obtain ⟨row, hrow, rfl⟩ := hx
      have := rowEnc_chars row 0 (by rw [hrows row hrow]; simp [BOARD_COLS]) ch hchx
      rcases this with ⟨h1, _⟩ | h | h
      · intro hc
        rw [hc] at h1
        exact absurd h1 (by decide)
      · rw [h]; decide
      · rw [h]; decide
  · intro n p rest hp
    rw [rowEnc_replicate]
    simp only [Nat.zero_add]
    rw [rowEnc_piece p hp rest (n + 1)]
    unfold flushStr
    rw [if_pos (Nat.succ_pos n)]

/-- Witness for C7 at the starting-position grid. -/
theorem c7_run_length_encoding_witness :
    (∀ ch ∈ boardPart S0.board_state, ch ≠ '0') ∧
    boardPart S0.board_state
      = joinSep ['/'] (S0.board_state.map fun row => rowEnc row 0) ∧
    (∀ (n : Nat) (p : Piece) (rest : List Piece), p ≠ .EMPTY →
      rowEnc (List.replicate (n + 1) .EMPTY ++ p :: rest) 0 =
        natToDecimal (n + 1) ++ strPiece p ++ rowEnc rest 0) ∧
    rowEnc (List.replicate BOARD_COLS .EMPTY) 0 = ['9'] :=
  c7_run_length_encoding S0.board_state
    (by unfold gridWF S0 BOARD_ROWS BOARD_COLS; decide)

theorem set_of_getq {α : Type} (g : List α) :
    ∀ (n : Nat) (a : α), g.get? n = some a → g.set n a = g := by
  induction g with
  | nil => intro n a h; simp at h
  | cons x xs ih =>
    intro n a h
    cases n with
    | zero =>
      simp only [List.get?_cons_zero, Option.some.injEq] at h
      rw [← h]
      rfl
    | succ m =>
      simp only [List.get?_cons_succ] at h
      show x :: xs.set m a = x :: xs
      rw [ih m a h]

theorem writeList_cons_succ {α : Type} (xs : List α) :
    ∀ (y : α) (row : List α) (c : Nat),
      writeList (y :: row) (c + 1) xs = y :: writeList row c xs := by
  induction xs with
  | nil => intro y row c; rfl
  | cons x xs ih =>
    intro y row c
    show writeList ((y :: row).set (c + 1) x) (c + 2) xs = _
    rw [show (y :: row).set (c + 1) x = y :: row.set c x from rfl, ih]
    rfl

theorem writeList_full {α : Type} (xs : List α) :
    ∀ (row : List α), xs.length = row.length → writeList row 0 xs = xs := by
  induction xs with
  | nil =>
    intro row h
    cases row with
    | nil => rfl
    | cons a r => simp at h
  | cons x xs ih =>
    intro row h
    cases row with
    | nil => simp at h
    | cons a r =>
      show writeList ((a :: r).set 0 x) 1 xs = x :: xs
      rw [show (a :: r).set 0 x = x :: r from rfl,
        show (1 : Nat) = 0 + 1 from rfl, writeList_cons_succ]
      simp only [List.length_cons, Nat.succ.injEq] at h
      rw [ih r h]

theorem writeList_append {α : Type} (xs ys : List α) :
    ∀ (row : List α) (c : Nat),
      writeList row c (xs ++ ys) = writeList (writeList row c xs) (c + xs.length) ys := by
  induction xs with
  | nil => intro row c; simp [writeList]
  | cons x xs ih =>
    intro row c
    show writeList (row.set c x) (c + 1) (xs ++ ys) = _
    rw [ih]
    show _ = writeList (writeList (row.set c x) (c + 1) xs) (c + (xs.length + 1)) ys
    congr 1
    omega

theorem length_writeList {α : Type} (xs : List α) :
    ∀ (row : List α) (c : Nat), (writeList row c xs).length = row.length := by
  induction xs with
  | nil => intro row c; rfl
  | cons x xs ih =>
    intro row c
    show (writeList (row.set c x) (c + 1) xs).length = _
    rw [ih, List.length_set]

theorem getq_set_self {α : Type} (g : List α) (n : Nat) (a : α) (h : n < g.length) :
    (g.set n a).get? n = some a := by
  rw [List.get?_set]
  rw [if_pos rfl]
  obtain ⟨b, hb⟩ : ∃ b, g.get? n = some b := ⟨_, List.get?_eq_get h⟩
  rw [hb]
  rfl

theorem writeRun_eq (n : Nat) :
    ∀ (g : List (List Piece)) (rI c : Nat) (row : List Piece),
      g.get? rI = some row → c + n ≤ row.length →
      writeRun g rI c n = .ok (g.set rI (writeList row c (List.replicate n Piece.EMPTY))) := by
  induction n with
  | zero =>
    intro g rI c row hg _
    show Except.ok g = _
    rw [show writeList row c (List.replicate 0 Piece.EMPTY) = row from rfl,
      set_of_getq g rI row hg]
  | succ m ih =>
    intro g rI c row hg hlen
    have hrIlt : rI < g.length := by
      by_contra hge
      rw [List.get?_eq_none.mpr (le_of_not_lt hge)] at hg
      exact Option.noConfusion hg
    have hclt : c < row.length := by omega
    show (do
      let g' ← setGridCell g rI c .EMPTY
      writeRun g' rI (c + 1) m) = _
    have hset : setGridCell g rI c .EMPTY = .ok (g.set rI (row.set c .EMPTY)) := by
      unfold setGridCell
      rw [hg]
      show (if c < row.length then Except.ok (g.set rI (row.set c Piece.EMPTY))
        else Except.error Err.malformed) = _
      rw [if_pos hclt]
    rw [hset]
    show writeRun (g.set rI (row.set c .EMPTY)) rI (c + 1) m = _
    rw [ih (g.set rI (row.set c .EMPTY)) rI (c + 1) (row.set c .EMPTY)
      (getq_set_self g rI _ hrIlt) (by rw [List.length_set]; omega)]
    rw [List.set_set]
    rw [show writeList row c (List.replicate (m + 1) Piece.EMPTY)
      = writeList (row.set c .EMPTY) (c + 1) (List.replicate m Piece.EMPTY) from rfl]

theorem decode_letter (p : Piece) (hp : p ≠ .EMPTY) (rest : List Char)
    (g : List (List Piece)) (rI c : Nat) (row : List Piece)
    (hg : g.get? rI = some row) (hc : c < row.length) :
    decodeRowGo (strPiece p ++ rest) g rI c =
      decodeRowGo rest (g.set rI (row.set c p)) rI (c + 1) := by
  have hset : ∀ q : Piece, setGridCell g rI c q = .ok (g.set rI (row.set c q)) := by
    intro q
    unfold setGridCell
    rw [hg]
    show (if c < row.length then Except.ok (g.set rI (row.set c q))
      else Except.error Err.malformed) = _
    rw [if_pos hc]
  cases p with
  | EMPTY => exact absurd rfl hp
  | WHITE =>
    rw [show strPiece Piece.WHITE ++ rest = 'W' :: rest from rfl]
    show (do
      let g' ← setGridCell g rI c Piece.WHITE
      decodeRowGo rest g' rI (c + 1)) = _
    rw [hset .WHITE]
    rfl
  | BLACK =>
    rw [show strPiece Piece.BLACK ++ rest = 'B' :: rest from rfl]
    show (do
      let g' ← setGridCell g rI c Piece.BLACK
      decodeRowGo rest g' rI (c + 1)) = _
    rw [hset .BLACK]
    rfl

theorem decode_flush (cnt : Nat) (rest : List Char)
    (g : List (List Piece)) (rI c : Nat) (row : List Piece)
    (hg : g.get? rI = some row) (hrow : row.length = 9) (hc : c + cnt ≤ 9) :
    decodeRowGo (flushStr cnt ++ rest) g rI c =
      decodeRowGo rest (g.set rI (writeList row c (List.replicate cnt Piece.EMPTY)))
        rI (c + cnt) := by
  cases cnt with
  | zero =>
    show decodeRowGo rest g rI c = _
    rw [show writeList row c (List.replicate 0 Piece.EMPTY) = row from rfl,
      set_of_getq g rI row hg]
    rfl
  | succ m =>
    have h1 : 1 ≤ m + 1 := Nat.succ_le_succ (Nat.zero_le m)
    have h9 : m + 1 ≤ 9 := by omega
    obtain ⟨he, hv, hbounds⟩ := natToDecimal_small (m + 1) h1 h9
    have hW : Nat.digitChar (m + 1) ≠ 'W' := by
      intro h
      rw [h] at hbounds
      exact absurd hbounds.2 (by decide)
    have hB : Nat.digitChar (m + 1) ≠ 'B' := by
      intro h
      rw [h] at hbounds
      exact absurd hbounds.2 (by decide)
    have hflush : flushStr (m + 1) = [Nat.digitChar (m + 1)] := by
      unfold flushStr
      rw [if_pos (Nat.succ_pos m), he]
    rw [hflush, List.singleton_append]
    rw [show decodeRowGo (Nat.digitChar (m + 1) :: rest) g rI c
        = (if Nat.digitChar (m + 1) = 'W' then do
            let g' ← setGridCell g rI c Piece.WHITE
            decodeRowGo rest g' rI (c + 1)
          else if Nat.digitChar (m + 1) = 'B' then do
            let g' ← setGridCell g rI c Piece.BLACK
            decodeRowGo rest g' rI (c + 1)
          else match charDigitVal (Nat.digitChar (m + 1)) with
            | none => Except.error Err.malformed
            | some 0 => decodeRowGo rest g rI (c + 1)
            | some (d + 1) => do
              let g' ← writeRun g rI c (d + 1)
              decodeRowGo rest g' rI (c + (d + 1))) from rfl]
    rw [if_neg hW, if_neg hB, hv]
    show (do
      let g' ← writeRun g rI c (m + 1)
      decodeRowGo rest g' rI (c + (m + 1))) = _
    rw [writeRun_eq (m + 1) g rI c row hg (by omega)]
    show decodeRowGo rest
      (g.set rI (writeList row c (List.replicate (m + 1) Piece.EMPTY))) rI (c + (m + 1)) = _
    rfl

theorem decodeRow_rt (r : List Piece) :
    ∀ (cnt : Nat) (g : List (List Piece)) (row : List Piece) (rI col : Nat),
      g.get? rI = some row → row.length = 9 → col + cnt + r.length = 9 →
      decodeRowGo (rowEnc r cnt) g rI col =
        .ok (g.set rI (writeList row col (List.replicate cnt Piece.EMPTY ++ r))) := by
  induction r with
  | nil =>
    intro cnt g row rI col hg hrow hsum
    rw [rowEnc_nil, show flushStr cnt = flushStr cnt ++ [] by simp,
      decode_flush cnt [] g rI col row hg hrow (by simpa using Nat.le_of_eq hsum)]
    show Except.ok _ = _
    simp
  | cons p rest ih =>
    intro cnt g row rI col hg hrow hsum
    cases p with
    | EMPTY =>
      rw [rowEnc_empty,
        ih (cnt + 1) g row rI col hg hrow (by simp at hsum ⊢; omega)]
      have : List.replicate (cnt + 1) Piece.EMPTY ++ rest
          = List.replicate cnt Piece.EMPTY ++ (Piece.EMPTY :: rest) := by
        rw [List.replicate_succ']
        simp
      rw [this]
    | WHITE =>
      have hsum' : col + cnt + (1 + rest.length) = 9 := by simp at hsum; omega
      rw [rowEnc_piece .WHITE (by simp) rest cnt, List.append_assoc,
        decode_flush cnt _ g rI col row hg hrow (by omega)]
      have hrIlt : rI < g.length := by
        by_contra hge
        rw [List.get?_eq_none.mpr (le_of_not_lt hge)] at hg
        exact Option.noConfusion hg
      have hlen1 : (writeList row col (List.replicate cnt Piece.EMPTY)).length = 9 := by
        rw [length_writeList, hrow]
      rw [decode_letter .WHITE (by simp) _ _ rI (col + cnt) _
        (getq_set_self g rI _ hrIlt) (by omega)]
      rw [List.set_set]
      rw [ih 0 _ _ rI (col + cnt + 1) (getq_set_self g rI _ hrIlt)
        (by rw [List.length_set]; exact hlen1) (by omega)]
      rw [List.set_set]
      congr 2
      show writeList _ (col + cnt + 1) rest = _
      rw [writeList_append (List.replicate cnt Piece.EMPTY) (Piece.WHITE :: rest) row col]
      rw [List.length_replicate]
      rfl
    | BLACK =>
      have hsum' : col + cnt + (1 + rest.length) = 9 := by simp at hsum; omega
      rw [rowEnc_piece .BLACK (by simp) rest cnt, List.append_assoc,
        decode_flush cnt _ g rI col row hg hrow (by omega)]
      have hrIlt : rI < g.length := by
        by_contra hge
        rw [List.get?_eq_none.mpr (le_of_not_lt hge)] at hg
        exact Option.noConfusion hg
      have hlen1 : (writeList row col (List.replicate cnt Piece.EMPTY)).length = 9 := by
        rw [length_writeList, hrow]
      rw [decode_letter .BLACK (by simp) _ _ rI (col + cnt) _
        (getq_set_self g rI _ hrIlt) (by omega)]
      rw [List.set_set]
      rw [ih 0 _ _ rI (col + cnt + 1) (getq_set_self g rI _ hrIlt)
        (by rw [List.length_set]; exact hlen1) (by omega)]
      rw [List.set_set]
      congr 2
      show writeList _ (col + cnt + 1) rest = _
      rw [writeList_append (List.replicate cnt Piece.EMPTY) (Piece.BLACK :: rest) row col]
      rw [List.length_replicate]
      rfl

theorem take_succ_set {α : Type} (g : List α) :
    ∀ (i : Nat) (a : α), i < g.length → (g.set i a).take (i + 1) = g.take i ++ [a] := by
  induction g with
  | nil => intro i a h; simp at h
  | cons x xs ih =>
    intro i a h
    cases i with
    | zero => rfl
    | succ j =>
      show x :: (xs.set j a).take (j + 1) = x :: xs.take j ++ [a]
      rw [ih j a (by simpa using h)]
      rfl

theorem decodeBoardGo_rt (rs : List (List Piece)) :
    ∀ (i : Nat) (g : List (List Piece)),
      (∀ r ∈ rs, r.length = BOARD_COLS) → (∀ row ∈ g, row.length = BOARD_COLS) →
      i + rs.length = g.length →
      decodeBoardGo (rs.map fun r => rowEnc r 0) i g = .ok (g.take i ++ rs) := by
  induction rs with
  | nil =>
    intro i g _ _ hlen
    show Except.ok g = _
    rw [List.take_of_length_le (by simp at hlen; omega)]
    simp
  | cons r rs ih =>
    intro i g hrs hg hlen
    have hilt : i < g.length := by simp at hlen; omega
    obtain ⟨row, hrow⟩ : ∃ row, g.get? i = some row := ⟨_, List.get?_eq_get hilt⟩
    have hrowlen : row.length = 9 := hg row (List.get?_mem hrow)
    have hrlen : r.length = 9 := hrs r (by simp)
    show (do
      let g' ← decodeRowGo (rowEnc r 0) g i 0
      decodeBoardGo (rs.map fun r => rowEnc r 0) (i + 1) g') = _
    rw [decodeRow_rt r 0 g row i 0 hrow hrowlen (by omega)]
    rw [show List.replicate 0 Piece.EMPTY ++ r = r from rfl]
    rw [writeList_full r row (by omega)]
    show decodeBoardGo (rs.map fun r => rowEnc r 0) (i + 1) (g.set i r) = _
    rw [ih (i + 1) (g.set i r)
      (fun x hx => hrs x (List.mem_cons_of_mem r hx))
      (fun x hx => by
        rcases List.mem_or_eq_of_mem_set hx with h | h
        · exact hg x h
        · rw [h]; exact hrlen)
      (by rw [List.length_set]; simp at hlen ⊢; omega)]
    rw [take_succ_set g i r hilt]
    simp

theorem splitP_no_sep (p : Char → Bool) (x : List Char)
    (h : ∀ ch ∈ x, p ch = false) : splitP p x = [x] := by
  induction x with
  | nil => rfl
  | cons c rest ih =>
    show (if p c then [] :: splitP p rest
      else match splitP p rest with
        | [] => [[c]]
        | x :: xs => (c :: x) :: xs) = _
    rw [if_neg (by rw [h c (by simp)]; simp)]
    rw [ih (fun ch hch => h ch (List.mem_cons_of_mem c hch))]

theorem splitP_sep_append (p : Char → Bool) (x : List Char) (sep : Char)
    (rest : List Char) (hsep : p sep = true) (h : ∀ ch ∈ x, p ch = false) :
    splitP p (x ++ sep :: rest) = x :: splitP p rest := by
  induction x with
  | nil =>
    show (if p sep then [] :: splitP p rest else _) = _
    rw [if_pos hsep]
  | cons c x' ih =>
    have hd : splitP p ((c :: x') ++ sep :: rest)
        = if p c then [] :: splitP p (x' ++ sep :: rest)
          else match splitP p (x' ++ sep :: rest) with
            | [] => [[c]]
            | z :: zs => (c :: z) :: zs := rfl
    rw [hd, if_neg (by rw [h c (by simp)]; simp)]
    rw [ih (fun ch hch => h ch (List.mem_cons_of_mem c hch))]

theorem splitP_joinSep (p : Char → Bool) (sep : Char) (hsep : p sep = true) :
    ∀ pieces, (∀ x ∈ pieces, ∀ ch ∈ x, p ch = false) → pieces ≠ [] →
      splitP p (joinSep [sep] pieces) = pieces := by
  intro pieces
  induction pieces with
  | nil => intro _ h; exact absurd rfl h
  | cons x xs ih =>
    intro hp _
    cases xs with
    | nil => exact splitP_no_sep p x (hp x (by simp))
    | cons y ys =>
      show splitP p (x ++ [sep] ++ joinSep [sep] (y :: ys)) = _
      rw [List.append_assoc, List.singleton_append,
        splitP_sep_append p x sep _ hsep (hp x (by simp))]
      rw [ih (fun z hz => hp z (List.mem_cons_of_mem x hz)) (by simp)]

theorem processBoard_rt (g : List (List Piece)) (hwf : gridWF g) :
    processBoard (boardPart g) = .ok g := by
  obtain ⟨hlen, hrows⟩ := hwf
  have hne : g ≠ [] := by
    intro h
    rw [h] at hlen
    simp [BOARD_ROWS] at hlen
  unfold processBoard splitChar
  rw [boardPart_eq_joinSep g hne hrows]
  rw [splitP_joinSep (fun c => c == '/') '/' (by simp) _
    (fun x hx ch hch => by
      rw [List.mem_map] at hx
      obtain ⟨row, hrow, rfl⟩ := hx
      have := rowEnc_chars row 0 (by rw [hrows row hrow]; simp [BOARD_COLS]) ch hch
      rcases this with ⟨h1, _⟩ | h | h
      · simp
        intro hc
        rw [hc] at h1
        exact absurd h1 (by decide)
      · rw [h]; decide
      · rw [h]; decide)
    (by simpa using hne)]
  rw [decodeBoardGo_rt g 0 zerosGrid hrows
    (by
      intro row hrow
      rw [List.eq_of_mem_replicate hrow]
      simp [BOARD_COLS])
    (by rw [hlen]; simp [zerosGrid])]
  rfl

theorem not_ws_of_ge (ch : Char) (h : 44 ≤ ch.toNat) : ch.isWhitespace = false := by
  simp only [Char.isWhitespace, Bool.or_eq_false_iff, decide_eq_false_iff_not]
  refine ⟨⟨⟨?_, ?_⟩, ?_⟩, ?_⟩ <;> intro hc <;> subst hc <;> exact absurd h (by decide)

theorem toNat_ge_of_le (a ch : Char) (h : a ≤ ch) : a.toNat ≤ ch.toNat := by
  rw [Char.le_def, UInt32.le_def, BitVec.le_def] at h
  exact h

theorem digitChar_facts (m : Nat) (h : m < 10) :
    (Nat.digitChar m).isDigit = true ∧ (Nat.digitChar m).toNat - 48 = m := by
  interval_cases m <;> exact (by decide)

theorem natDigitsRevFuel_digits (f : Nat) :
    ∀ n, ∀ ch ∈ natDigitsRevFuel f n, ch.isDigit = true := by
  induction f with
  | zero => intro n ch hch; exact absurd hch (List.not_mem_nil ch)
  | succ f ih =>
    intro n ch hch
    unfold natDigitsRevFuel at hch
    by_cases h0 : n = 0
    · rw [if_pos h0] at hch
      exact absurd hch (List.not_mem_nil ch)
    · rw [if_neg h0] at hch
      rcases List.mem_cons.mp hch with h | h
      · rw [h]
        exact (digitChar_facts (n % 10) (Nat.mod_lt n (by norm_num))).1
      · exact ih (n / 10) ch h

theorem natToDecimal_all_digits (n : Nat) :
    ∀ ch ∈ natToDecimal n, ch.isDigit = true := by
  intro ch hch
  unfold natToDecimal at hch
  by_cases h0 : n = 0
  · rw [if_pos h0, List.mem_singleton] at hch
    rw [hch]
    decide
  · rw [if_neg h0, List.mem_reverse] at hch
    exact natDigitsRevFuel_digits n n ch hch

theorem foldl_digits_rev (f : Nat) :
    ∀ (n a : Nat), n ≤ f →
      List.foldl (fun v c => 10 * v + (c.toNat - 48)) a (natDigitsRevFuel f n).reverse
        = a * 10 ^ (natDigitsRevFuel f n).length + n := by
  induction f with
  | zero =>
    intro n a h
    have : n = 0 := by omega
    subst this
    simp [natDigitsRevFuel]
  | succ f ih =>
    intro n a h
    by_cases h0 : n = 0
    · subst h0
      simp [natDigitsRevFuel]
    · have hstep : natDigitsRevFuel (f + 1) n
          = Nat.digitChar (n % 10) :: natDigitsRevFuel f (n / 10) := by
        rw [show natDigitsRevFuel (f + 1) n
          = if n = 0 then [] else Nat.digitChar (n % 10) :: natDigitsRevFuel f (n / 10)
          from rfl, if_neg h0]
      have hdiv : n / 10 ≤ f := by
        have := Nat.div_lt_self (Nat.pos_of_ne_zero h0) (by norm_num : (1 : Nat) < 10)
        omega
      rw [hstep]
      rw [List.reverse_cons, List.foldl_append, ih (n / 10) a hdiv]
      simp only [List.foldl_cons, List.foldl_nil, List.length_cons]
      rw [(digitChar_facts (n % 10) (Nat.mod_lt n (by norm_num))).2]
      have hmod := Nat.div_add_mod n 10
      ring_nf
      omega

theorem digitsFoldVal_natToDecimal (n : Nat) :
    digitsFoldVal (natToDecimal n) = n := by
  unfold digitsFoldVal natToDecimal
  by_cases h0 : n = 0
  · subst h0; decide
  · rw [if_neg h0, foldl_digits_rev n n 0 (le_refl n)]
    simp

theorem pyDigitsTail_all (cs : List Char)
    (h : ∀ ch ∈ cs, ch.isDigit = true) : pyDigitsTail cs = true := by
  induction cs with
  | nil => rfl
  | cons c rest ih =>
    have hc : c.isDigit = true := h c (by simp)
    have hcu : ¬ c = '_' := by
      intro heq
      rw [heq] at hc
      exact absurd hc (by decide)
    unfold pyDigitsTail
    rw [if_neg hcu, hc, ih (fun ch hch => h ch (List.mem_cons_of_mem c hch))]
    rfl

theorem pyInt_natToDecimal (n : Nat) : pyInt (natToDecimal n) = some (n : Int) := by
  have hdig := natToDecimal_all_digits n
  have hok : pyDigitsOk (natToDecimal n) = true := by
    cases hn : natToDecimal n with
    | nil => exact absurd hn (natToDecimal_ne_nil n)
    | cons c rest =>
      show (c.isDigit && pyDigitsTail rest) = true
      rw [hdig c (by rw [hn]; simp),
        pyDigitsTail_all rest (fun ch hch => hdig ch (by rw [hn]; simp [hch]))]
      rfl
  have hfilter : (natToDecimal n).filter (fun c => c != '_') = natToDecimal n := by
    rw [List.filter_eq_self]
    intro ch hch
    have := hdig ch hch
    simp only [bne_iff_ne, ne_eq, decide_eq_true_eq]
    intro heq
    rw [heq] at this
    exact absurd this (by decide)
  unfold pyInt
  split
  · next heq =>
    exfalso
    have : '-' ∈ natToDecimal n := by rw [heq]; simp
    have := hdig '-' this
    exact absurd this (by decide)
  · next heq =>
    exfalso
    have : '+' ∈ natToDecimal n := by rw [heq]; simp
    have := hdig '+' this
    exact absurd this (by decide)
  · next =>
    rw [hok]
    simp only [if_true]
    rw [hfilter, digitsFoldVal_natToDecimal]

theorem pyInt_intRepr (i : Int) (h : 0 ≤ i) : pyInt (intRepr i) = some i := by
  unfold intRepr
  rw [if_neg (by omega)]
  rw [pyInt_natToDecimal]
  rw [Int.toNat_of_nonneg h]

theorem dir_rt (d : Direction) :
    (if dirStr d = ['-'] then Except.ok Direction.X
      else
        match dirOfName (dirStr d) with
        | some dd => Except.ok dd
        | none => Except.error Err.malformed) = Except.ok d := by
  cases d <;> rfl

theorem dirStr_ne_nil (d : Direction) : dirStr d ≠ [] := by
  cases d <;> decide

theorem dirStr_no_ws (d : Direction) : ∀ ch ∈ dirStr d, ch.isWhitespace = false := by
  cases d <;> decide

theorem grid_ext {α : Type} (g1 g2 : List (List α))
    (hrow : ∀ r, (g1.get? r).map List.length = (g2.get? r).map List.length)
    (hcell : ∀ r c, cell2 g1 r c = cell2 g2 r c) : g1 = g2 := by
  apply List.ext
  intro r
  cases h1 : g1.get? r with
  | none =>
    cases h2 : g2.get? r with
    | none => rfl
    | some row2 =>
      have := hrow r
      rw [h1, h2] at this
      simp at this
  | some row1 =>
    cases h2 : g2.get? r with
    | none =>
      have := hrow r
      rw [h1, h2] at this
      simp at this
    | some row2 =>
      congr 1
      apply List.ext
      intro c
      have hc := hcell r c
      unfold cell2 at hc
      rw [h1, h2] at hc
      simpa using hc

theorem mem_truePos (v : List (List Bool)) (r c : Nat) :
    (r, c) ∈ truePos v ↔ cell2 v r c = some true := by
  unfold truePos
  rw [List.mem_flatten]
  constructor
  · rintro ⟨l, hl, hrc⟩
    rw [List.mem_map] at hl
    obtain ⟨⟨ri, row⟩, hmem, rfl⟩ := hl
    rw [List.mem_filterMap] at hrc
    obtain ⟨⟨ci, b⟩, hcb, hif⟩ := hrc
    cases hb : b with
    | false =>
      rw [hb] at hif
      simp at hif
    | true =>
      rw [hb] at hif
      simp only [if_true] at hif
      have hpair : (ri, ci) = (r, c) := Option.some_inj.mp hif
      obtain ⟨hr, hc⟩ := Prod.mk.injEq .. ▸ hpair
      have hv : v.get? ri = some row := List.mem_enum_iff_get?.mp hmem
      have hrowc : row.get? ci = some b := List.mem_enum_iff_get?.mp hcb
      unfold cell2
      rw [← hr, ← hc, hv]
      rw [hb] at hrowc
      simpa using hrowc
  · intro h
    unfold cell2 at h
    cases h1 : v.get? r with
    | none => rw [h1] at h; simp at h
    | some row =>
      rw [h1] at h
      simp only [Option.some_bind] at h
      refine ⟨row.enum.filterMap fun cb => if cb.2 then some (r, cb.1) else none, ?_, ?_⟩
      · rw [List.mem_map]
        exact ⟨(r, row), List.mem_enum_iff_get?.mpr h1, rfl⟩
      · rw [List.mem_filterMap]
        exact ⟨(c, true), List.mem_enum_iff_get?.mpr h, by simp⟩

theorem visitedLabels_eq (v : List (List Bool)) :
    visitedLabels v = (truePos v).map fun q => to_human q.1 q.2 := by
  unfold visitedLabels truePos
  rw [List.map_flatten, List.map_map]
  congr 1
  apply List.map_congr_left
  intro rc _
  show (rc.2.enum.filterMap fun cb => if cb.2 then some (to_human rc.1 cb.1) else none)
    = List.map (fun q => to_human q.1 q.2)
        (rc.2.enum.filterMap fun cb => if cb.2 then some (rc.1, cb.1) else none)
  rw [List.map_filterMap]
  congr 1
  funext cb
  cases hcb : cb.2 <;> simp [hcb]

theorem parse_to_human :
    ∀ r < BOARD_ROWS, ∀ c < BOARD_COLS, parseHumanPos (to_human r c) = some (r, c) := by
  decide

theorem to_human_facts :
    ∀ r < BOARD_ROWS, ∀ c < BOARD_COLS,
      to_human r c ≠ [] ∧ (to_human r c).length = 2 ∧
      ∀ ch ∈ to_human r c,
        ((ch == ',') = false ∧ ch.isWhitespace = false) := by
  decide

theorem processVisitedGo_fold (ps : List (Nat × Nat)) :
    ∀ (w : List (List Bool)),
      (∀ q ∈ ps, q.1 < BOARD_ROWS ∧ q.2 < BOARD_COLS) →
      processVisitedGo (ps.map fun q => to_human q.1 q.2) w
        = .ok (ps.foldl (fun acc q => set2 acc q.1 q.2 true) w) := by
  induction ps with
  | nil => intro w _; rfl
  | cons q ps ih =>
    intro w hps
    obtain ⟨h1, h2⟩ := hps q (by simp)
    show (match parseHumanPos (to_human q.1 q.2) with
      | none => Except.error Err.malformed
      | some rc => processVisitedGo (ps.map fun q : Nat × Nat => to_human q.1 q.2)
          (set2 w rc.1 rc.2 true)) = _
    rw [parse_to_human q.1 h1 q.2 h2]
    show processVisitedGo (ps.map fun q : Nat × Nat => to_human q.1 q.2)
      (set2 w q.1 q.2 true) = _
    rw [ih (set2 w q.1 q.2 true) (fun x hx => hps x (List.mem_cons_of_mem q hx))]
    rfl

theorem truePos_bounds (v : List (List Bool)) (hwf : gridWF v) :
    ∀ q ∈ truePos v, q.1 < BOARD_ROWS ∧ q.2 < BOARD_COLS := by
  obtain ⟨hlen, hrows⟩ := hwf
  rintro ⟨qr, qc⟩ hq
  have hc := (mem_truePos v qr qc).mp hq
  unfold cell2 at hc
  cases h1 : v.get? qr with
  | none => rw [h1] at hc; simp at hc
  | some row =>
    rw [h1] at hc
    simp only [Option.some_bind] at hc
    have hqr : qr < v.length := by
      by_contra hge
      rw [List.get?_eq_none.mpr (le_of_not_lt hge)] at h1
      exact Option.noConfusion h1
    have hqc : qc < row.length := by
      by_contra hge
      rw [List.get?_eq_none.mpr (le_of_not_lt hge)] at hc
      exact Option.noConfusion hc
    exact ⟨hlen ▸ hqr, hrows row (List.get?_mem h1) ▸ hqc⟩

theorem cell2_zerosVisited (r c : Nat) :
    cell2 zerosVisited r c
      = if r < BOARD_ROWS ∧ c < BOARD_COLS then some false else none := by
  unfold cell2 zerosVisited
  rw [List.get?_eq_getElem?, List.getElem?_replicate]
  by_cases hr : r < BOARD_ROWS
  · rw [if_pos hr]
    simp only [Option.some_bind]
    rw [List.get?_eq_getElem?, List.getElem?_replicate]
    by_cases hc : c < BOARD_COLS
    · rw [if_pos hc, if_pos ⟨hr, hc⟩]
    · rw [if_neg hc, if_neg (fun h => hc h.2)]
  · rw [if_neg hr]
    simp only [Option.none_bind]
    rw [if_neg (fun h => hr h.1)]

theorem rowlen_zerosVisited (r : Nat) :
    (zerosVisited.get? r).map List.length
      = if r < BOARD_ROWS then some BOARD_COLS else none := by
  unfold zerosVisited
  rw [List.get?_eq_getElem?, List.getElem?_replicate]
  by_cases hr : r < BOARD_ROWS
  · rw [if_pos hr, if_pos hr]
    simp
  · rw [if_neg hr, if_neg hr]
    rfl

theorem cell2_wf_some (v : List (List Bool)) (hlen : v.length = BOARD_ROWS)
    (hrows : ∀ row ∈ v, row.length = BOARD_COLS) (r c : Nat)
    (hr : r < BOARD_ROWS) (hc : c < BOARD_COLS) :
    ∃ b, cell2 v r c = some b := by
  obtain ⟨row, h1⟩ : ∃ row, v.get? r = some row := ⟨_, List.get?_eq_get (hlen ▸ hr)⟩
  obtain ⟨b, h2⟩ : ∃ b, row.get? c = some b :=
    ⟨_, List.get?_eq_get ((hrows row (List.get?_mem h1)) ▸ hc)⟩
  exact ⟨b, by unfold cell2; rw [h1]; simpa using h2⟩

theorem cell2_wf_none (v : List (List Bool)) (hlen : v.length = BOARD_ROWS)
    (hrows : ∀ row ∈ v, row.length = BOARD_COLS) (r c : Nat)
    (h : ¬(r < BOARD_ROWS ∧ c < BOARD_COLS)) :
    cell2 v r c = none := by
  unfold cell2
  by_cases hr : r < BOARD_ROWS
  · obtain ⟨row, h1⟩ : ∃ row, v.get? r = some row := ⟨_, List.get?_eq_get (hlen ▸ hr)⟩
    have hc : ¬ c < BOARD_COLS := fun hc => h ⟨hr, hc⟩
    rw [h1]
    simp only [Option.some_bind]
    exact List.get?_eq_none.mpr ((hrows row (List.get?_mem h1)) ▸ le_of_not_lt hc)
  · rw [List.get?_eq_none.mpr (hlen ▸ le_of_not_lt hr)]
    rfl

theorem processVisited_rt (v : List (List Bool)) (hwf : gridWF v) :
    processVisited (if visitedLabels v = [] then ['-']
      else joinSep [','] (visitedLabels v)) = .ok v := by
  obtain ⟨hlen, hrows⟩ := hwf
  have hbounds := truePos_bounds v ⟨hlen, hrows⟩
  by_cases hemp : visitedLabels v = []
  · rw [if_pos hemp]
    show Except.ok zerosVisited = Except.ok v
    congr 1
    have htp : truePos v = [] := by
      have h := visitedLabels_eq v
      rw [hemp] at h
      exact (List.map_eq_nil.mp h.symm)
    apply grid_ext
    · intro r
      rw [rowlen_zerosVisited]
      by_cases hr : r < BOARD_ROWS
      · obtain ⟨row, h1⟩ : ∃ row, v.get? r = some row :=
          ⟨_, List.get?_eq_get (hlen ▸ hr)⟩
        rw [if_pos hr, h1]
        simp [hrows row (List.get?_mem h1)]
      · rw [if_neg hr, List.get?_eq_none.mpr (hlen ▸ le_of_not_lt hr)]
        rfl
    · intro r c
      rw [cell2_zerosVisited]
      by_cases hin : r < BOARD_ROWS ∧ c < BOARD_COLS
      · rw [if_pos hin]
        obtain ⟨b, hb⟩ := cell2_wf_some v hlen hrows r c hin.1 hin.2
        rw [hb]
        cases hbv : b with
        | false => rfl
        | true =>
          exfalso
          rw [hbv] at hb
          have := (mem_truePos v r c).mpr hb
          rw [htp] at this
          exact absurd this (List.not_mem_nil _)
      · rw [if_neg hin, cell2_wf_none v hlen hrows r c hin]
  · rw [if_neg hemp]
    unfold processVisited
    have hlab := visitedLabels_eq v
    have hlablen : ∀ x ∈ visitedLabels v, x.length = 2 := by
      intro x hx
      rw [hlab, List.mem_map] at hx
      obtain ⟨q, hq, rfl⟩ := hx
      obtain ⟨h1, h2⟩ := hbounds q hq
      exact (to_human_facts q.1 h1 q.2 h2).2.1
    have hne2 : joinSep [','] (visitedLabels v) ≠ ['-'] := by
      intro h
      have : (joinSep [','] (visitedLabels v)).length = 1 := by rw [h]; rfl
      cases hl : visitedLabels v with
      | nil => exact hemp hl
      | cons x xs =>
        cases xs with
        | nil =>
          rw [hl, show joinSep [','] [x] = x from rfl] at this
          have hx2 := hlablen x (by rw [hl]; simp)
          omega
        | cons y ys =>
          rw [hl, show joinSep [','] (x :: y :: ys)
            = x ++ [','] ++ joinSep [','] (y :: ys) from rfl] at this
          have hx2 := hlablen x (by rw [hl]; simp)
          rw [List.length_append, List.length_append, hx2] at this
          omega
    rw [if_neg hne2]
    have hsplit : splitChar ',' (joinSep [','] (visitedLabels v)) = visitedLabels v := by
      unfold splitChar
      apply splitP_joinSep (fun c => c == ',') ',' (by simp)
      · intro x hx ch hch
        rw [hlab, List.mem_map] at hx
        obtain ⟨q, hq, rfl⟩ := hx
        obtain ⟨h1, h2⟩ := hbounds q hq
        exact ((to_human_facts q.1 h1 q.2 h2).2.2 ch hch).1
      · exact hemp
    rw [hsplit, hlab, processVisitedGo_fold (truePos v) zerosVisited hbounds]
    congr 1
    apply grid_ext
    · intro r
      rw [rowlen_foldl_set2, rowlen_zerosVisited]
      by_cases hr : r < BOARD_ROWS
      · obtain ⟨row, h1⟩ : ∃ row, v.get? r = some row :=
          ⟨_, List.get?_eq_get (hlen ▸ hr)⟩
        rw [if_pos hr, h1]
        simp [hrows row (List.get?_mem h1)]
      · rw [if_neg hr, List.get?_eq_none.mpr (hlen ▸ le_of_not_lt hr)]
        rfl
    · intro r c
      rw [cell2_foldl_set2, cell2_zerosVisited]
      by_cases hin : r < BOARD_ROWS ∧ c < BOARD_COLS
      · rw [if_pos hin]
        by_cases hmem : (r, c) ∈ truePos v
        · rw [if_pos ⟨hmem, rfl⟩]
          exact ((mem_truePos v r c).mp hmem).symm
        · rw [if_neg (fun hcon => hmem hcon.1)]
          obtain ⟨b, hb⟩ := cell2_wf_some v hlen hrows r c hin.1 hin.2
          cases hbv : b with
          | true => exact absurd ((mem_truePos v r c).mpr (hbv ▸ hb)) hmem
          | false => rw [hb, hbv]
      · rw [if_neg hin]
        simp [cell2_wf_none v hlen hrows r c hin]

theorem not_ws_of_digit (ch : Char) (h : ch.isDigit = true) :
    ch.isWhitespace = false := by
  apply not_ws_of_ge
  simp [Char.isDigit] at h
  have h2 := h.1
  rw [UInt32.le_def, BitVec.le_def] at h2
  exact le_trans (by decide) h2

theorem joinSep_cons_ne_nil (sep : Char) (x : List Char) (xs : List (List Char))
    (hx : x ≠ []) : joinSep [sep] (x :: xs) ≠ [] := by
  cases xs with
  | nil => exact hx
  | cons y ys =>
    show x ++ [sep] ++ joinSep [sep] (y :: ys) ≠ []
    intro h
    have := congrArg List.length h
    simp at this

theorem pySplitWs_joinSep (fields : List (List Char)) (hne : fields ≠ [])
    (h : ∀ x ∈ fields, x ≠ [] ∧ ∀ ch ∈ x, ch.isWhitespace = false) :
    pySplitWs (joinSep [' '] fields) = fields := by
  unfold pySplitWs
  rw [splitP_joinSep (fun c => c.isWhitespace) ' ' (by decide) fields
    (fun x hx ch hch => (h x hx).2 ch hch) hne]
  rw [List.filter_eq_self.mpr]
  intro a ha
  simpa using (h a ha).1

theorem boardPart_no_ws (g : List (List Piece)) (hwf : gridWF g) :
    ∀ ch ∈ boardPart g, ch.isWhitespace = false := by
  obtain ⟨hlen, hrows⟩ := hwf
  have hne : g ≠ [] := by
    intro h
    rw [h] at hlen
    simp [BOARD_ROWS] at hlen
  intro ch hch
  rw [boardPart_eq_joinSep g hne hrows] at hch
  rcases mem_joinSep '/' ch _ hch with h | ⟨x, hx, hchx⟩
  · rw [h]; decide
  · rw [List.mem_map] at hx
    obtain ⟨row, hrow, rfl⟩ := hx
    have := rowEnc_chars row 0 (by rw [hrows row hrow]; simp [BOARD_COLS]) ch hchx
    rcases this with ⟨h1, _⟩ | h | h
    · exact not_ws_of_ge ch (le_trans (by decide) (toNat_ge_of_le '1' ch h1))
    · rw [h]; decide
    · rw [h]; decide

theorem boardPart_ne_nil (g : List (List Piece)) (hwf : gridWF g) :
    boardPart g ≠ [] := by
  obtain ⟨hlen, hrows⟩ := hwf
  have hne : g ≠ [] := by
    intro h
    rw [h] at hlen
    simp [BOARD_ROWS] at hlen
  rw [boardPart_eq_joinSep g hne hrows]
  cases hg : g with
  | nil => exact absurd hg hne
  | cons row rest =>
    show joinSep ['/'] ((row :: rest).map fun r => rowEnc r 0) ≠ []
    apply joinSep_cons_ne_nil
    exact rowEnc_ne_nil row 0 (Or.inl (by
      intro h
      have := hrows row (by rw [hg]; simp)
      rw [h] at this
      simp [BOARD_COLS] at this))

theorem visitedStr_facts (v : List (List Bool)) (hwf : gridWF v) :
    (if visitedLabels v = [] then ['-'] else joinSep [','] (visitedLabels v)) ≠ [] ∧
    ∀ ch ∈ (if visitedLabels v = [] then ['-'] else joinSep [','] (visitedLabels v)),
      ch.isWhitespace = false := by
  have hbounds := truePos_bounds v hwf
  by_cases hemp : visitedLabels v = []
  · rw [if_pos hemp]
    exact ⟨by simp, by decide⟩
  · rw [if_neg hemp]
    have hlab := visitedLabels_eq v
    constructor
    · cases hl : visitedLabels v with
      | nil => exact absurd hl hemp
      | cons x xs =>
        apply joinSep_cons_ne_nil
        have hx : x ∈ visitedLabels v := by rw [hl]; simp
        rw [hlab, List.mem_map] at hx
        obtain ⟨q, hq, rfl⟩ := hx
        obtain ⟨h1, h2⟩ := hbounds q hq
        exact (to_human_facts q.1 h1 q.2 h2).1
    · intro ch hch
      rcases mem_joinSep ',' ch _ hch with h | ⟨x, hx, hchx⟩
      · rw [h]; decide
      · rw [hlab, List.mem_map] at hx
        obtain ⟨q, hq, rfl⟩ := hx
        obtain ⟨h1, h2⟩ := hbounds q hq
        exact ((to_human_facts q.1 h1 q.2 h2).2.2 ch hchx).2

theorem intRepr_facts (i : Int) (h : 0 ≤ i) :
    intRepr i ≠ [] ∧ ∀ ch ∈ intRepr i, ch.isWhitespace = false := by
  unfold intRepr
  rw [if_neg (by omega)]
  exact ⟨natToDecimal_ne_nil _,
    fun ch hch => not_ws_of_digit ch (natToDecimal_all_digits _ ch hch)⟩

/-- C1: decoding the notation string produced by encoding any structurally
valid state (5×9 grid, WHITE/BLACK to move, 5×9 visited grid, non-negative
half-move count) gives back the state, field by field. -/
theorem c1_round_trip (s : FanoronaState)
    (hg : gridWF s.board_state) (hv : gridWF s.visited)
    (ht : s.turn_to_play = Piece.WHITE ∨ s.turn_to_play = Piece.BLACK)
    (hh : 0 ≤ s.half_moves) :
    set_from_board_str (get_board_str s) = .ok s := by
  obtain ⟨bs, tp, ld, vis, hm⟩ := s
  simp only at hg hv ht hh
  have hgetb : get_board_str ⟨bs, tp, ld, vis, hm⟩
      = joinSep [' '] [boardPart bs, strPiece tp, dirStr ld,
          (if visitedLabels vis = [] then ['-'] else joinSep [','] (visitedLabels vis)),
          intRepr hm] := rfl
  rw [hgetb]
  have htp_facts : strPiece tp ≠ [] ∧ ∀ ch ∈ strPiece tp, ch.isWhitespace = false := by
    rcases ht with rfl | rfl <;> exact ⟨by decide, by decide⟩
  have hvf := visitedStr_facts vis hv
  have hif := intRepr_facts hm hh
  have hsplit := pySplitWs_joinSep
    [boardPart bs, strPiece tp, dirStr ld,
      (if visitedLabels vis = [] then ['-'] else joinSep [','] (visitedLabels vis)),
      intRepr hm]
    (by simp)
    (by
      intro x hx
      simp only [List.mem_cons, List.not_mem_nil, or_false] at hx
      rcases hx with rfl | rfl | rfl | rfl | rfl
      · exact ⟨boardPart_ne_nil bs hg, boardPart_no_ws bs hg⟩
      · exact htp_facts
      · exact ⟨dirStr_ne_nil ld, dirStr_no_ws ld⟩
      · exact hvf
      · exact hif)
  unfold set_from_board_str
  rw [hsplit]
  have hdir : (dirOfName (dirStr ld) = some ld ∧ dirStr ld ≠ ['-'])
      ∨ (ld = Direction.X ∧ dirStr ld = ['-']) := by
    cases ld
    case X => exact Or.inr ⟨rfl, rfl⟩
    all_goals exact Or.inl ⟨rfl, by decide⟩
  rcases hdir with ⟨hd1, hd2⟩ | ⟨rfl, hd⟩
  · rcases ht with rfl | rfl <;>
      simp [processBoard_rt bs hg, processVisited_rt vis hv, pyInt_intRepr hm hh,
        hd1, hd2, Bind.bind, Except.bind, strPiece]
  · rcases ht with rfl | rfl <;>
      simp [processBoard_rt bs hg, processVisited_rt vis hv, pyInt_intRepr hm hh,
        Bind.bind, Except.bind, strPiece, dirStr, dirOfName]

/-- Witness for C1: the starting position round-trips. -/
theorem c1_round_trip_witness : set_from_board_str (get_board_str S0) = .ok S0 :=
  c1_round_trip S0
    (by unfold gridWF S0 BOARD_ROWS BOARD_COLS; decide)
    (by unfold gridWF S0 zerosVisited BOARD_ROWS BOARD_COLS; decide)
    (Or.inl rfl)
    (by decide)

theorem setGridCell_cases (g : List (List Piece)) (r c : Nat) (p : Piece) :
    setGridCell g r c p = .error .malformed ∨
    (∃ row, g.get? r = some row ∧ c < row.length ∧
      setGridCell g r c p = .ok (g.set r (row.set c p))) := by
  cases hg : g.get? r with
  | none => exact Or.inl (by unfold setGridCell; rw [hg])
  | some row =>
    by_cases hc : c < row.length
    · refine Or.inr ⟨row, rfl, hc, ?_⟩
      unfold setGridCell
      rw [hg]
      show (if c < row.length then Except.ok (g.set r (row.set c p))
        else Except.error Err.malformed) = _
      rw [if_pos hc]
    · refine Or.inl ?_
      unfold setGridCell
      rw [hg]
      show (if c < row.length then Except.ok (g.set r (row.set c p))
        else Except.error Err.malformed) = _
      rw [if_neg hc]

theorem writeRun_error_kind (n : Nat) :
    ∀ (g : List (List Piece)) (r c : Nat) (e : Err),
      writeRun g r c n = .error e → e = .malformed := by
  induction n with
  | zero => intro g r c e h; exact absurd h (by simp [writeRun])
  | succ m ih =>
    intro g r c e h
    rcases setGridCell_cases g r c .EMPTY with hs | ⟨row, _, _, hs⟩
    · rw [show writeRun g r c (m + 1)
        = (do
          let g' ← setGridCell g r c .EMPTY
          writeRun g' r (c + 1) m) from rfl, hs] at h
      exact (Except.error.injEq .. ▸ h).symm
    · rw [show writeRun g r c (m + 1)
        = (do
          let g' ← setGridCell g r c .EMPTY
          writeRun g' r (c + 1) m) from rfl, hs] at h
      exact ih _ r (c + 1) e h

theorem decodeRowGo_error_kind (cs : List Char) :
    ∀ (g : List (List Piece)) (r c : Nat) (e : Err),
      decodeRowGo cs g r c = .error e → e = .malformed := by
  induction cs with
  | nil => intro g r c e h; exact absurd h (by simp [decodeRowGo])
  | cons ch rest ih =>
    intro g r c e h
    by_cases hW : ch = 'W'
    · rw [show decodeRowGo (ch :: rest) g r c
        = (if ch = 'W' then do
            let g' ← setGridCell g r c .WHITE
            decodeRowGo rest g' r (c + 1)
          else if ch = 'B' then do
            let g' ← setGridCell g r c .BLACK
            decodeRowGo rest g' r (c + 1)
          else match charDigitVal ch with
            | none => Except.error Err.malformed
            | some 0 => decodeRowGo rest g r (c + 1)
            | some (d + 1) => do
              let g' ← writeRun g r c (d + 1)
              decodeRowGo rest g' r (c + (d + 1))) from rfl, if_pos hW] at h
      rcases setGridCell_cases g r c .WHITE with hs | ⟨row, _, _, hs⟩
      · rw [hs] at h
        exact (Except.error.injEq .. ▸ h).symm
      · rw [hs] at h
        exact ih _ r (c + 1) e h
    · by_cases hB : ch = 'B'
      · rw [show decodeRowGo (ch :: rest) g r c
          = (if ch = 'W' then do
              let g' ← setGridCell g r c .WHITE
              decodeRowGo rest g' r (c + 1)
            else if ch = 'B' then do
              let g' ← setGridCell g r c .BLACK
              decodeRowGo rest g' r (c + 1)
            else match charDigitVal ch with
              | none => Except.error Err.malformed
              | some 0 => decodeRowGo rest g r (c + 1)
              | some (d + 1) => do
                let g' ← writeRun g r c (d + 1)
                decodeRowGo rest g' r (c + (d + 1))) from rfl,
          if_neg hW, if_pos hB] at h
        rcases setGridCell_cases g r c .BLACK with hs | ⟨row, _, _, hs⟩
        · rw [hs] at h
          exact (Except.error.injEq .. ▸ h).symm
        · rw [hs] at h
          exact ih _ r (c + 1) e h
      · rw [show decodeRowGo (ch :: rest) g r c
          = (if ch = 'W' then do
              let g' ← setGridCell g r c .WHITE
              decodeRowGo rest g' r (c + 1)
            else if ch = 'B' then do
              let g' ← setGridCell g r c .BLACK
              decodeRowGo rest g' r (c + 1)
            else match charDigitVal ch with
              | none => Except.error Err.malformed
              | some 0 => decodeRowGo rest g r (c + 1)
              | some (d + 1) => do
                let g' ← writeRun g r c (d + 1)
                decodeRowGo rest g' r (c + (d + 1))) from rfl,
          if_neg hW, if_neg hB] at h
        cases hd : charDigitVal ch with
        | none =>
          rw [hd] at h
          exact (Except.error.injEq .. ▸ h).symm
        | some d =>
          rw [hd] at h
          cases d with
          | zero => exact ih g r (c + 1) e h
          | succ m =>
            replace h : (do
              let g' ← writeRun g r c (m + 1)
              decodeRowGo rest g' r (c + (m + 1))) = Except.error e := h
            cases hw : writeRun g r c (m + 1) with
            | error e2 =>
              rw [hw] at h
              have h2 : e = e2 := (Except.error.injEq .. ▸ h).symm
              rw [h2]
              exact writeRun_error_kind (m + 1) g r c e2 hw
            | ok g2 =>
              rw [hw] at h
              exact ih g2 r (c + (m + 1)) e h

theorem decodeBoardGo_error_kind (rows : List (List Char)) :
    ∀ (i : Nat) (g : List (List Piece)) (e : Err),
      decodeBoardGo rows i g = .error e → e = .malformed := by
  induction rows with
  | nil => intro i g e h; exact absurd h (by simp [decodeBoardGo])
  | cons r rest ih =>
    intro i g e h
    rw [show decodeBoardGo (r :: rest) i g
      = (do
        let g' ← decodeRowGo r g i 0
        decodeBoardGo rest (i + 1) g') from rfl] at h
    cases hr : decodeRowGo r g i 0 with
    | error e2 =>
      rw [hr] at h
      have h2 : e = e2 := (Except.error.injEq .. ▸ h).symm
      rw [h2]
      exact decodeRowGo_error_kind r g i 0 e2 hr
    | ok g2 =>
      rw [hr] at h
      exact ih (i + 1) g2 e h

theorem processVisitedGo_error_kind (labels : List (List Char)) :
    ∀ (w : List (List Bool)) (e : Err),
      processVisitedGo labels w = .error e → e = .malformed := by
  induction labels with
  | nil => intro w e h; exact absurd h (by simp [processVisitedGo])
  | cons label rest ih =>
    intro w e h
    rw [show processVisitedGo (label :: rest) w
      = (match parseHumanPos label with
        | none => Except.error Err.malformed
        | some rc => processVisitedGo rest (set2 w rc.1 rc.2 true)) from rfl] at h
    cases hp : parseHumanPos label with
    | none =>
      rw [hp] at h
      exact (Except.error.injEq .. ▸ h).symm
    | some rc =>
      rw [hp] at h
      exact ih _ e h

theorem decodeRowGo_cons (ch : Char) (rest : List Char)
    (g : List (List Piece)) (r c : Nat) :
    decodeRowGo (ch :: rest) g r c
      = (if ch = 'W' then do
          let g' ← setGridCell g r c .WHITE
          decodeRowGo rest g' r (c + 1)
        else if ch = 'B' then do
          let g' ← setGridCell g r c .BLACK
          decodeRowGo rest g' r (c + 1)
        else
          match charDigitVal ch with
          | none => Except.error Err.malformed
          | some 0 => decodeRowGo rest g r (c + 1)
          | some (d + 1) => do
            let g' ← writeRun g r c (d + 1)
            decodeRowGo rest g' r (c + (d + 1))) := rfl

theorem decodeBoardGo_cons (r : List Char) (rest : List (List Char))
    (i : Nat) (g : List (List Piece)) :
    decodeBoardGo (r :: rest) i g
      = (do
        let g' ← decodeRowGo r g i 0
        decodeBoardGo rest (i + 1) g') := rfl

theorem rowConsume_cons (ch : Char) (rest : List Char) :
    rowConsume (ch :: rest)
      = (if ch = 'W' ∨ ch = 'B' then 1 else (charDigitVal ch).getD 0)
        + rowConsume rest := by
  simp [rowConsume]

theorem setGridCell_in (g : List (List Piece)) (r c : Nat) (p : Piece)
    (row : List Piece) (hg : g.get? r = some row) (hc : c < row.length) :
    setGridCell g r c p = .ok (g.set r (row.set c p)) := by
  unfold setGridCell
  rw [hg]
  show (if c < row.length then Except.ok (g.set r (row.set c p))
    else Except.error Err.malformed) = _
  rw [if_pos hc]

theorem setGridCell_out (g : List (List Piece)) (r c : Nat) (p : Piece)
    (row : List Piece) (hg : g.get? r = some row) (hc : ¬ c < row.length) :
    setGridCell g r c p = .error .malformed := by
  unfold setGridCell
  rw [hg]
  show (if c < row.length then Except.ok (g.set r (row.set c p))
    else Except.error Err.malformed) = _
  rw [if_neg hc]

theorem setGridCell_none (g : List (List Piece)) (r c : Nat) (p : Piece)
    (hg : g.get? r = none) : setGridCell g r c p = .error .malformed := by
  unfold setGridCell
  rw [hg]

theorem writeRun_oob (n : Nat) :
    ∀ (g : List (List Piece)) (r col : Nat) (row : List Piece),
      g.get? r = some row → row.length = 9 → 9 < col + n → 1 ≤ n →
      writeRun g r col n = .error .malformed := by
  induction n with
  | zero => intro g r col row _ _ _ h1; omega
  | succ m ih =>
    intro g r col row hg hlen hover _
    show (do
      let g' ← setGridCell g r col .EMPTY
      writeRun g' r (col + 1) m) = _
    by_cases hcol : col < 9
    · have hrlt : r < g.length := by
        by_contra hge
        rw [List.get?_eq_none.mpr (le_of_not_lt hge)] at hg
        exact Option.noConfusion hg
      rw [setGridCell_in g r col .EMPTY row hg (by omega)]
      show writeRun (g.set r (row.set col .EMPTY)) r (col + 1) m = _
      exact ih _ r (col + 1) (row.set col .EMPTY) (getq_set_self g r _ hrlt)
        (by rw [List.length_set]; exact hlen) (by omega) (by omega)
    · rw [setGridCell_out g r col .EMPTY row hg (by omega)]
      rfl

theorem decodeRowGo_overrun (cs : List Char) :
    ∀ (g : List (List Piece)) (r col : Nat) (row : List Piece),
      g.get? r = some row → row.length = 9 →
      9 < min col 9 + rowConsume cs →
      decodeRowGo cs g r col = .error .malformed := by
  induction cs with
  | nil =>
    intro g r col row _ _ hcon
    exfalso
    have h1 : min col 9 ≤ 9 := Nat.min_le_right col 9
    have h0 : rowConsume [] = 0 := rfl
    omega
  | cons ch rest ih =>
    intro g r col row hg hlen hcon
    have hrlt : r < g.length := by
      by_contra hge
      rw [List.get?_eq_none.mpr (le_of_not_lt hge)] at hg
      exact Option.noConfusion hg
    rw [decodeRowGo_cons]
    rw [rowConsume_cons] at hcon
    by_cases hW : ch = 'W'
    · rw [if_pos hW]
      rw [if_pos (Or.inl hW)] at hcon
      by_cases hcol : col < 9
      · rw [setGridCell_in g r col .WHITE row hg (by omega)]
        show decodeRowGo rest (g.set r (row.set col .WHITE)) r (col + 1) = _
        refine ih _ r (col + 1) (row.set col .WHITE) (getq_set_self g r _ hrlt)
          (by rw [List.length_set]; exact hlen) ?_
        have e1 : min col 9 = col := Nat.min_eq_left (by omega)
        have e2 : min (col + 1) 9 = col + 1 := Nat.min_eq_left (by omega)
        omega
      · rw [setGridCell_out g r col .WHITE row hg (by omega)]
        rfl
    · by_cases hB : ch = 'B'
      · rw [if_neg hW, if_pos hB]
        rw [if_pos (Or.inr hB)] at hcon
        by_cases hcol : col < 9
        · rw [setGridCell_in g r col .BLACK row hg (by omega)]
          show decodeRowGo rest (g.set r (row.set col .BLACK)) r (col + 1) = _
          refine ih _ r (col + 1) (row.set col .BLACK) (getq_set_self g r _ hrlt)
            (by rw [List.length_set]; exact hlen) ?_
          have e1 : min col 9 = col := Nat.min_eq_left (by omega)
          have e2 : min (col + 1) 9 = col + 1 := Nat.min_eq_left (by omega)
          omega
        · rw [setGridCell_out g r col .BLACK row hg (by omega)]
          rfl
      · rw [if_neg hW, if_neg hB]
        rw [if_neg (by push_neg; exact ⟨hW, hB⟩)] at hcon
        cases hd : charDigitVal ch with
        | none => rfl
        | some d =>
          rw [hd] at hcon
          cases d with
          | zero =>
            show decodeRowGo rest g r (col + 1) = _
            refine ih g r (col + 1) row hg hlen ?_
            simp only [Option.getD_some] at hcon
            omega
          | succ m =>
            simp only [Option.getD_some] at hcon
            by_cases hfit : col + (m + 1) ≤ 9
            · show (do
                let g' ← writeRun g r col (m + 1)
                decodeRowGo rest g' r (col + (m + 1))) = _
              rw [writeRun_eq (m + 1) g r col row hg (by omega)]
              show decodeRowGo rest
                (g.set r (writeList row col (List.replicate (m + 1) Piece.EMPTY)))
                r (col + (m + 1)) = _
              refine ih _ r (col + (m + 1)) _ (getq_set_self g r _ hrlt)
                (by rw [length_writeList]; exact hlen) ?_
              have e1 : min col 9 = col := Nat.min_eq_left (by omega)
              have e2 : min (col + (m + 1)) 9 = col + (m + 1) :=
                Nat.min_eq_left (by omega)
              omega
            · show (do
                let g' ← writeRun g r col (m + 1)
                decodeRowGo rest g' r (col + (m + 1))) = _
              rw [writeRun_oob (m + 1) g r col row hg hlen (by omega) (by omega)]
              rfl

theorem decodeRowGo_norow (cs : List Char) :
    ∀ (g : List (List Piece)) (r col : Nat),
      g.get? r = none → 0 < rowConsume cs →
      decodeRowGo cs g r col = .error .malformed := by
  induction cs with
  | nil => intro g r col _ hcon; exact absurd hcon (by simp [rowConsume])
  | cons ch rest ih =>
    intro g r col hg hcon
    rw [decodeRowGo_cons]
    rw [rowConsume_cons] at hcon
    by_cases hW : ch = 'W'
    · rw [if_pos hW, setGridCell_none g r col .WHITE hg]
      rfl
    · by_cases hB : ch = 'B'
      · rw [if_neg hW, if_pos hB, setGridCell_none g r col .BLACK hg]
        rfl
      · rw [if_neg hW, if_neg hB]
        rw [if_neg (by push_neg; exact ⟨hW, hB⟩)] at hcon
        cases hd : charDigitVal ch with
        | none => rfl
        | some d =>
          rw [hd] at hcon
          simp only [Option.getD_some] at hcon
          cases d with
          | zero => exact ih g r (col + 1) hg (by omega)
          | succ m =>
            show (do
              let g' ← writeRun g r col (m + 1)
              decodeRowGo rest g' r (col + (m + 1))) = _
            rw [show writeRun g r col (m + 1)
              = (do
                let g' ← setGridCell g r col .EMPTY
                writeRun g' r (col + 1) m) from rfl]
            rw [setGridCell_none g r col .EMPTY hg]
            rfl

theorem rowlen_set_row (g : List (List Piece)) (r : Nat) (row y : List Piece)
    (hg : g.get? r = some row) (hy : y.length = row.length) (j : Nat) :
    ((g.set r y).get? j).map List.length = (g.get? j).map List.length := by
  rw [List.get?_set]
  by_cases hj : r = j
  · subst hj
    rw [if_pos rfl, hg]
    simp [hy]
  · rw [if_neg hj]

theorem writeRun_shape (n : Nat) :
    ∀ (g : List (List Piece)) (r c : Nat) (g' : List (List Piece)),
      writeRun g r c n = .ok g' →
      ∀ j, (g'.get? j).map List.length = (g.get? j).map List.length := by
  induction n with
  | zero =>
    intro g r c g' h j
    have h2 : Except.ok (ε := Err) g = Except.ok g' := h
    rw [← Except.ok.inj h2]
  | succ m ih =>
    intro g r c g' h j
    replace h : (do
      let g1 ← setGridCell g r c .EMPTY
      writeRun g1 r (c + 1) m) = Except.ok g' := h
    rcases setGridCell_cases g r c .EMPTY with hs | ⟨row, hrow, hcl, hs⟩
    · rw [hs] at h
      exact Except.noConfusion h
    · rw [hs] at h
      replace h : writeRun (g.set r (row.set c .EMPTY)) r (c + 1) m = Except.ok g' := h
      rw [ih _ r (c + 1) g' h j,
        rowlen_set_row g r row (row.set c .EMPTY) hrow (List.length_set ..) j]

theorem decodeRowGo_shape (cs : List Char) :
    ∀ (g : List (List Piece)) (r c : Nat) (g' : List (List Piece)),
      decodeRowGo cs g r c = .ok g' →
      ∀ j, (g'.get? j).map List.length = (g.get? j).map List.length := by
  induction cs with
  | nil =>
    intro g r c g' h j
    have h2 : Except.ok (ε := Err) g = Except.ok g' := h
    rw [← Except.ok.inj h2]
  | cons ch rest ih =>
    intro g r c g' h j
    rw [decodeRowGo_cons] at h
    by_cases hW : ch = 'W'
    · rw [if_pos hW] at h
      rcases setGridCell_cases g r c .WHITE with hs | ⟨row, hrow, hcl, hs⟩
      · rw [hs] at h
        exact Except.noConfusion h
      · rw [hs] at h
        replace h : decodeRowGo rest (g.set r (row.set c .WHITE)) r (c + 1)
            = Except.ok g' := h
        rw [ih _ r (c + 1) g' h j,
          rowlen_set_row g r row (row.set c .WHITE) hrow (List.length_set ..) j]
    · by_cases hB : ch = 'B'
      · rw [if_neg hW, if_pos hB] at h
        rcases setGridCell_cases g r c .BLACK with hs | ⟨row, hrow, hcl, hs⟩
        · rw [hs] at h
          exact Except.noConfusion h
        · rw [hs] at h
          replace h : decodeRowGo rest (g.set r (row.set c .BLACK)) r (c + 1)
              = Except.ok g' := h
          rw [ih _ r (c + 1) g' h j,
            rowlen_set_row g r row (row.set c .BLACK) hrow (List.length_set ..) j]
      · rw [if_neg hW, if_neg hB] at h
        cases hd : charDigitVal ch with
        | none =>
          rw [hd] at h
          exact Except.noConfusion h
        | some d =>
          rw [hd] at h
          cases d with
          | zero => exact ih g r (c + 1) g' h j
          | succ m =>
            replace h : (do
              let g1 ← writeRun g r c (m + 1)
              decodeRowGo rest g1 r (c + (m + 1))) = Except.ok g' := h
            cases hw : writeRun g r c (m + 1) with
            | error e =>
              rw [hw] at h
              exact Except.noConfusion h
            | ok g1 =>
              rw [hw] at h
              replace h : decodeRowGo rest g1 r (c + (m + 1)) = Except.ok g' := h
              rw [ih g1 r (c + (m + 1)) g' h j, writeRun_shape (m + 1) g r c g1 hw j]

theorem decodeBoardGo_overrun (rows : List (List Char)) :
    ∀ (i : Nat) (g : List (List Piece)),
      (∀ j row, g.get? j = some row → row.length = 9) →
      (∃ row ∈ rows, 9 < rowConsume row) →
      decodeBoardGo rows i g = .error .malformed := by
  induction rows with
  | nil =>
    intro i g _ hex
    obtain ⟨row, hm, _⟩ := hex
    exact absurd hm (List.not_mem_nil row)
  | cons r rest ih =>
    intro i g hshape hex
    rw [decodeBoardGo_cons]
    by_cases hover : 9 < rowConsume r
    · cases hg : g.get? i with
      | some row =>
        rw [decodeRowGo_overrun r g i 0 row hg (hshape i row hg)
          (by simp only [Nat.min_def]; omega)]
        rfl
      | none =>
        rw [decodeRowGo_norow r g i 0 hg (by omega)]
        rfl
    · have hex' : ∃ row ∈ rest, 9 < rowConsume row := by
        obtain ⟨row, hm, hc⟩ := hex
        rcases List.mem_cons.mp hm with rfl | hm'
        · exact absurd hc hover
        · exact ⟨row, hm', hc⟩
      cases hrow : decodeRowGo r g i 0 with
      | error e =>
        show Except.error e = Except.error Err.malformed
        rw [decodeRowGo_error_kind r g i 0 e hrow]
      | ok g2 =>
        show decodeBoardGo rest (i + 1) g2 = _
        refine ih (i + 1) g2 ?_ hex'
        intro j row2 hj
        have hsh := decodeRowGo_shape r g i 0 g2 hrow j
        rw [hj] at hsh
        cases hgj : g.get? j with
        | none => rw [hgj] at hsh; simp at hsh
        | some row0 =>
          rw [hgj] at hsh
          simp only [Option.map_some'] at hsh
          rw [Option.some.injEq] at hsh
          rw [hsh]
          exact hshape j row0 hgj

theorem processVisitedGo_bad (labels : List (List Char)) :
    ∀ (w : List (List Bool)),
      (∃ label ∈ labels, parseHumanPos label = none) →
      processVisitedGo labels w = .error .malformed := by
  induction labels with
  | nil =>
    intro w h
    obtain ⟨label, hm, _⟩ := h
    exact absurd hm (List.not_mem_nil label)
  | cons label rest ih =>
    intro w h
    show (match parseHumanPos label with
      | none => Except.error Err.malformed
      | some rc => processVisitedGo rest (set2 w rc.1 rc.2 true)) = _
    cases hp : parseHumanPos label with
    | none => rfl
    | some rc =>
      obtain ⟨l2, hm, hbad⟩ := h
      rcases List.mem_cons.mp hm with rfl | hm'
      · rw [hp] at hbad
        exact Option.noConfusion hbad
      · exact ih _ ⟨l2, hm', hbad⟩

theorem processVisited_error_kind (cs : List Char) (e : Err)
    (h : processVisited cs = .error e) : e = .malformed := by
  unfold processVisited at h
  by_cases hd : cs = ['-']
  · rw [if_pos hd] at h
    exact Except.noConfusion h
  · rw [if_neg hd] at h
    exact processVisitedGo_error_kind _ _ e h

theorem zerosGrid_shape :
    ∀ j row, zerosGrid.get? j = some row → row.length = 9 := by
  intro j row h
  have := List.get?_mem h
  rw [List.eq_of_mem_replicate this]
  simp [BOARD_COLS]

/-- C5: a notation string with the wrong number of fields, an unknown
direction name, an unparsable half-move integer, an invalid human label in
the visited field, or a board row whose tokens consume more than
`BOARD_COLS` columns, decodes to the malformed-input error. -/
theorem c5_malformed_inputs (cs : List Char)
    (hbad : (pySplitWs cs).length ≠ 5 ∨
      ∃ b t d v h, pySplitWs cs = [b, t, d, v, h] ∧
        ((d ≠ ['-'] ∧ dirOfName d = none) ∨
          pyInt h = none ∨
          (v ≠ ['-'] ∧ ∃ label ∈ splitChar ',' v, parseHumanPos label = none) ∨
          (∃ rowChars ∈ splitChar '/' b, 9 < rowConsume rowChars))) :
    set_from_board_str cs = .error .malformed := by
  unfold set_from_board_str
  rcases hbad with hlen | ⟨b, t, d, v, h, hfields, hcase⟩
  · rcases hsp : pySplitWs cs with _ | ⟨f1, _ | ⟨f2, _ | ⟨f3, _ | ⟨f4, _ | ⟨f5, _ | ⟨f6, rest⟩⟩⟩⟩⟩⟩
    · rfl
    · rfl
    · rfl
    · rfl
    · rfl
    · rw [hsp] at hlen
      simp at hlen
    · rfl
  · rw [hfields]
    show (do
      let grid ← processBoard b
      let turn := if t = ['W'] then Piece.WHITE else Piece.BLACK
      let dir ←
        if d = ['-'] then Except.ok Direction.X
        else
          match dirOfName d with
          | some dd => Except.ok dd
          | none => Except.error Err.malformed
      let vis ← processVisited v
      let hm ←
        match pyInt h with
        | some n => Except.ok n
        | none => Except.error Err.malformed
      Except.ok (⟨grid, turn, dir, vis, hm⟩ : FanoronaState))
      = Except.error Err.malformed
    have hpbk : ∀ e, processBoard b = .error e → e = .malformed := by
      intro e hpb
      exact decodeBoardGo_error_kind _ 0 zerosGrid e hpb
    rcases hcase with ⟨hdne, hdnone⟩ | hint | ⟨hvne, hlbad⟩ | hbbad
    · -- unknown direction name
      cases hpb : processBoard b with
      | error e =>
        show Except.error e = _
        rw [hpbk e hpb]
      | ok grid =>
        show (do
          let dir ←
            if d = ['-'] then Except.ok Direction.X
            else
              match dirOfName d with
              | some dd => Except.ok dd
              | none => Except.error Err.malformed
          let vis ← processVisited v
          let hm ←
            match pyInt h with
            | some n => Except.ok n
            | none => Except.error Err.malformed
          Except.ok (⟨grid, if t = ['W'] then Piece.WHITE else Piece.BLACK,
            dir, vis, hm⟩ : FanoronaState)) = _
        rw [if_neg hdne, hdnone]
        rfl
    · -- unparsable half-move integer
      cases hpb : processBoard b with
      | error e =>
        show Except.error e = _
        rw [hpbk e hpb]
      | ok grid =>
        show (do
          let dir ←
            if d = ['-'] then Except.ok Direction.X
            else
              match dirOfName d with
              | some dd => Except.ok dd
              | none => Except.error Err.malformed
          let vis ← processVisited v
          let hm ←
            match pyInt h with
            | some n => Except.ok n
            | none => Except.error Err.malformed
          Except.ok (⟨grid, if t = ['W'] then Piece.WHITE else Piece.BLACK,
            dir, vis, hm⟩ : FanoronaState)) = _
        have htail : ∀ dd : Direction, (do
            let vis ← processVisited v
            let hm ←
              match pyInt h with
              | some n => Except.ok n
              | none => Except.error Err.malformed
            Except.ok (⟨grid, if t = ['W'] then Piece.WHITE else Piece.BLACK,
              dd, vis, hm⟩ : FanoronaState)) = Except.error Err.malformed := by
          intro dd
          cases hpv : processVisited v with
          | error e2 =>
            show Except.error e2 = _
            rw [processVisited_error_kind v e2 hpv]
          | ok vg =>
            show (do
              let hm ←
                match pyInt h with
                | some n => Except.ok n
                | none => Except.error Err.malformed
              Except.ok (⟨grid, if t = ['W'] then Piece.WHITE else Piece.BLACK,
                dd, vg, hm⟩ : FanoronaState)) = _
            rw [hint]
            rfl
        by_cases hd' : d = ['-']
        · rw [if_pos hd']
          exact htail Direction.X
        · rw [if_neg hd']
          cases hdo : dirOfName d with
          | none => rfl
          | some dd => exact htail dd
    · -- invalid human label in the visited field
      have hpv : processVisited v = .error .malformed := by
        unfold processVisited
        rw [if_neg hvne]
        exact processVisitedGo_bad _ _ hlbad
      cases hpb : processBoard b with
      | error e =>
        show Except.error e = _
        rw [hpbk e hpb]
      | ok grid =>
        show (do
          let dir ←
            if d = ['-'] then Except.ok Direction.X
            else
              match dirOfName d with
              | some dd => Except.ok dd
              | none => Except.error Err.malformed
          let vis ← processVisited v
          let hm ←
            match pyInt h with
            | some n => Except.ok n
            | none => Except.error Err.malformed
          Except.ok (⟨grid, if t = ['W'] then Piece.WHITE else Piece.BLACK,
            dir, vis, hm⟩ : FanoronaState)) = _
        have htail : ∀ dd : Direction, (do
            let vis ← processVisited v
            let hm ←
              match pyInt h with
              | some n => Except.ok n
              | none => Except.error Err.malformed
            Except.ok (⟨grid, if t = ['W'] then Piece.WHITE else Piece.BLACK,
              dd, vis, hm⟩ : FanoronaState)) = Except.error Err.malformed := by
          intro dd
          rw [hpv]
          rfl
        by_cases hd' : d = ['-']
        · rw [if_pos hd']
          exact htail Direction.X
        · rw [if_neg hd']
          cases hdo : dirOfName d with
          | none => rfl
          | some dd => exact htail dd
    · -- a board row overruns the columns
      have hpb : processBoard b = .error .malformed :=
        decodeBoardGo_overrun _ 0 zerosGrid zerosGrid_shape hbbad
      rw [hpb]
      rfl

/-- Witness for C5 at a concrete malformed string (unknown direction name). -/
theorem c5_malformed_inputs_witness :
    set_from_board_str ("9/9/9/9/9 W Q - 0".data) = .error .malformed :=
  c5_malformed_inputs ("9/9/9/9/9 W Q - 0".data)
    (Or.inr ⟨"9/9/9/9/9".data, ['W'], ['Q'], ['-'], ['0'],
      by decide, Or.inl ⟨by decide, by decide⟩⟩)

end Fanorona
